import Mathlib

/-!
Verification of the CTE (Compact Transaction Encoding) core: a shallow
embedding of `src/encoder.c`, `src/decoder.c` and `src/cte.c`.

Bytes are modelled as `Nat` values below 256.  Machine integers are `Nat`
(for `uint64_t` / `size_t`) or `Int` (for `int64_t`); where C wraparound is
possible the arithmetic is taken modulo `2 ^ 64`.  `lea_abort` is modelled
by returning `none`.  The encoder's buffer is modelled as the list of bytes
written so far (the observable prefix `buffer[0 .. position)`), so
`position = buffer.length`.
-/

/-! ### Wire-format constants (`src/cte.h`; the vector-dialect renames used by
`src/decoder.c` / `src/encoder.c` keep the same numeric values, as fixed by
the spec's bit layouts `00/01/10/11`, the peek-enumerant table and the
short/extended vector-data format). -/

def CTE_VERSION_BYTE : Nat := 0xF1
def CTE_MAX_TRANSACTION_SIZE : Nat := 1232
def CTE_TAG_PUBLIC_KEY_VECTOR : Nat := 0x00
def CTE_TAG_SIGNATURE_VECTOR : Nat := 0x40
def CTE_TAG_IXDATA_FIELD : Nat := 0x80
def CTE_TAG_VECTOR_DATA : Nat := 0xC0
def CTE_TAG_MASK : Nat := 0xC0
def CTE_VECTOR_ENTRY_SIZE_MASK : Nat := 0x03
def CTE_VECTOR_MAX_LEN : Nat := 15
def CTE_IXDATA_SUBTYPE_VECTOR_INDEX : Nat := 0x00
def CTE_IXDATA_SUBTYPE_VARINT : Nat := 0x01
def CTE_IXDATA_SUBTYPE_FIXED : Nat := 0x02
def CTE_IXDATA_SUBTYPE_CONSTANT : Nat := 0x03
def CTE_IXDATA_SUBTYPE_MASK : Nat := 0x03
def CTE_IXDATA_VARINT_ENC_ZERO : Nat := 0x00
def CTE_IXDATA_VARINT_ENC_ULEB128 : Nat := 0x01
def CTE_IXDATA_VARINT_ENC_SLEB128 : Nat := 0x02
def CTE_IXDATA_CONST_VAL_FALSE : Nat := 0x00
def CTE_IXDATA_CONST_VAL_TRUE : Nat := 0x01
def CTE_VECTOR_INDEX_MAX_VALUE : Nat := 15
def CTE_VECTOR_FORMAT_FLAG_MASK : Nat := 0x20
def CTE_VECTOR_FORMAT_SHORT : Nat := 0x00
def CTE_VECTOR_FORMAT_EXTENDED : Nat := 0x20
def CTE_VECTOR_SHORT_MAX_LEN : Nat := 31
def CTE_VECTOR_EXTENDED_MIN_LEN : Nat := 32
def CTE_VECTOR_EXTENDED_MAX_LEN : Nat := 1197

def CTE_PUBKEY_SIZE_ED25519 : Nat := 32
def CTE_PUBKEY_SIZE_SLH_128F : Nat := 32
def CTE_PUBKEY_SIZE_SLH_192F : Nat := 48
def CTE_PUBKEY_SIZE_SLH_256F : Nat := 64
def CTE_SIGNATURE_SIZE_ED25519 : Nat := 64
def CTE_SIGNATURE_HASH_SIZE_PQC : Nat := 32

def CTE_PEEK_TYPE_PK_VECTOR_SIZE_0 : Int := 0
def CTE_PEEK_TYPE_SIG_VECTOR_SIZE_0 : Int := 4
def CTE_PEEK_TYPE_IXDATA_VECTOR_INDEX : Int := 8
def CTE_PEEK_TYPE_IXDATA_VARINT_ZERO : Int := 9
def CTE_PEEK_TYPE_IXDATA_ULEB128 : Int := 10
def CTE_PEEK_TYPE_IXDATA_SLEB128 : Int := 11
def CTE_PEEK_TYPE_IXDATA_INT8 : Int := 12
def CTE_PEEK_TYPE_IXDATA_INT16 : Int := 13
def CTE_PEEK_TYPE_IXDATA_INT32 : Int := 14
def CTE_PEEK_TYPE_IXDATA_INT64 : Int := 15
def CTE_PEEK_TYPE_IXDATA_UINT8 : Int := 16
def CTE_PEEK_TYPE_IXDATA_UINT16 : Int := 17
def CTE_PEEK_TYPE_IXDATA_UINT32 : Int := 18
def CTE_PEEK_TYPE_IXDATA_UINT64 : Int := 19
def CTE_PEEK_TYPE_IXDATA_FLOAT32 : Int := 20
def CTE_PEEK_TYPE_IXDATA_FLOAT64 : Int := 21
def CTE_PEEK_TYPE_IXDATA_CONST_FALSE : Int := 22
def CTE_PEEK_TYPE_IXDATA_CONST_TRUE : Int := 23
def CTE_PEEK_TYPE_VECTOR_SHORT : Int := 24
def CTE_PEEK_TYPE_VECTOR_EXTENDED : Int := 25
def CTE_PEEK_EOF : Int := 0xFF

def SIZE_MAX : Nat := 2 ^ 64 - 1

/-! ### Item-size tables (`src/cte.c`); `none` models `lea_abort`. -/

def get_public_key_size : Nat → Option Nat
  | 0x00 => some CTE_PUBKEY_SIZE_ED25519
  | 0x01 => some CTE_PUBKEY_SIZE_SLH_128F
  | 0x02 => some CTE_PUBKEY_SIZE_SLH_192F
  | 0x03 => some CTE_PUBKEY_SIZE_SLH_256F
  | _ => none

def get_signature_item_size : Nat → Option Nat
  | 0x00 => some CTE_SIGNATURE_SIZE_ED25519
  | 0x01 => some CTE_SIGNATURE_HASH_SIZE_PQC
  | 0x02 => some CTE_SIGNATURE_HASH_SIZE_PQC
  | 0x03 => some CTE_SIGNATURE_HASH_SIZE_PQC
  | _ => none

/-! ### LEB128 byte sequences produced by `_encode_uleb128` / `_encode_sleb128`
(`src/encoder.c`).  `uleb128Bytes` / `sleb128Bytes` are the emitted bytes of
the do/while loops, independent of the capacity bookkeeping. -/

def uleb128Bytes (value : Nat) : List Nat :=
  let byte := value &&& 0x7f
  let value2 := value >>> 7
  if value2 = 0 then [byte] else (byte ||| 0x80) :: uleb128Bytes value2
termination_by value
decreasing_by
  simp only [Nat.shiftRight_eq_div_pow] at *
  omega

def sleb128Bytes (value : Int) : List Nat :=
  let byte := (value % 128).toNat
  let value2 := value / 128
  if (value2 = 0 ∧ byte &&& 0x40 = 0) ∨ (value2 = -1 ∧ byte &&& 0x40 ≠ 0) then [byte]
  else (byte ||| 0x80) :: sleb128Bytes value2
termination_by value.natAbs
decreasing_by
  rename_i hstop
  have hb0 : ¬(value = 0) := by
    intro h0
    subst h0
    exact hstop (Or.inl (by constructor <;> decide))
  have hbm1 : ¬(value = -1) := by
    intro h1
    subst h1
    exact hstop (Or.inr (by constructor <;> decide))
  omega

/-- The capacity-checked byte loop inside `_encode_uleb128`: iteration `i`
first runs `CHECK_CAPACITY(handle, write_offset + i + 1)` (which compares
`position + (write_offset + i + 1)` against `capacity`), then emits the
byte.  Returns the emitted bytes, `none` on a capacity abort. -/
def encodeUlebLoop (position capacity write_offset : Nat) (value : Nat) (i : Nat) :
    Option (List Nat) :=
  if position + (write_offset + i + 1) > capacity then none
  else
    let byte := value &&& 0x7f
    let value2 := value >>> 7
    if value2 = 0 then some [byte]
    else
      match encodeUlebLoop position capacity write_offset value2 (i + 1) with
      | none => none
      | some rest => some ((byte ||| 0x80) :: rest)
termination_by value
decreasing_by
  simp only [Nat.shiftRight_eq_div_pow] at *
  omega

/-- The capacity-checked byte loop inside `_encode_sleb128`. -/
def encodeSlebLoop (position capacity write_offset : Nat) (value : Int) (i : Nat) :
    Option (List Nat) :=
  if position + (write_offset + i + 1) > capacity then none
  else
    let byte := (value % 128).toNat
    let value2 := value / 128
    if (value2 = 0 ∧ byte &&& 0x40 = 0) ∨ (value2 = -1 ∧ byte &&& 0x40 ≠ 0) then some [byte]
    else
      match encodeSlebLoop position capacity write_offset value2 (i + 1) with
      | none => none
      | some rest => some ((byte ||| 0x80) :: rest)
termination_by value.natAbs
decreasing_by
  rename_i hstop
  have hb0 : ¬(value = 0) := by
    intro h0
    subst h0
    exact hstop (Or.inl (by constructor <;> decide))
  have hbm1 : ¬(value = -1) := by
    intro h1
    subst h1
    exact hstop (Or.inr (by constructor <;> decide))
  omega

/-! ### Encoder (`src/encoder.c`) -/

structure cte_encoder_t where
  buffer : List Nat
  capacity : Nat
deriving Repr, DecidableEq

/-- The write position; in the C struct this is a separate field that always
equals the number of bytes written. -/
def cte_encoder_t.position (handle : cte_encoder_t) : Nat := handle.buffer.length

def cte_encoder_init (capacity : Nat) : Option cte_encoder_t :=
  if capacity < 1 then none
  else some { buffer := [CTE_VERSION_BYTE], capacity := capacity }

def cte_encoder_get_data (handle : cte_encoder_t) : List Nat := handle.buffer

def cte_encoder_get_size (handle : cte_encoder_t) : Nat := handle.position

def _encode_uleb128 (handle : cte_encoder_t) (write_offset : Nat) (value : Nat) :
    Option (List Nat) :=
  encodeUlebLoop handle.position handle.capacity write_offset value 0

def _encode_sleb128 (handle : cte_encoder_t) (write_offset : Nat) (value : Int) :
    Option (List Nat) :=
  encodeSlebLoop handle.position handle.capacity write_offset value 0

def cte_encoder_write_ixdata_uleb128 (handle : cte_encoder_t) (value : Nat) :
    Option cte_encoder_t :=
  if handle.position + 1 > handle.capacity then none
  else
    let header := CTE_TAG_IXDATA_FIELD ||| (CTE_IXDATA_VARINT_ENC_ULEB128 <<< 2) |||
      CTE_IXDATA_SUBTYPE_VARINT
    match _encode_uleb128 handle (handle.position + 1) value with
    | none => none
    | some bs => some { handle with buffer := handle.buffer ++ header :: bs }

def cte_encoder_write_ixdata_sleb128 (handle : cte_encoder_t) (value : Int) :
    Option cte_encoder_t :=
  if handle.position + 1 > handle.capacity then none
  else
    let header := CTE_TAG_IXDATA_FIELD ||| (CTE_IXDATA_VARINT_ENC_SLEB128 <<< 2) |||
      CTE_IXDATA_SUBTYPE_VARINT
    match _encode_sleb128 handle (handle.position + 1) value with
    | none => none
    | some bs => some { handle with buffer := handle.buffer ++ header :: bs }

/-- `write_fixed_data_internal`; `data` is the little-endian byte image the C
caller passes by pointer, `data_size` the `memcpy` size. -/
def write_fixed_data_internal (handle : cte_encoder_t) (type_code data_size : Nat)
    (data : List Nat) : Option cte_encoder_t :=
  if type_code ≥ 0x0A then none
  else if handle.position + (1 + data_size) > handle.capacity then none
  else
    let header := CTE_TAG_IXDATA_FIELD ||| ((type_code &&& 0x0F) <<< 2) |||
      CTE_IXDATA_SUBTYPE_FIXED
    some { handle with buffer := handle.buffer ++ header :: data.take data_size }

def cte_encoder_write_ixdata_vector_index (handle : cte_encoder_t) (index : Nat) :
    Option cte_encoder_t :=
  if index > CTE_VECTOR_INDEX_MAX_VALUE then none
  else if handle.position + 1 > handle.capacity then none
  else
    let header := CTE_TAG_IXDATA_FIELD ||| ((index &&& 0x0F) <<< 2) |||
      CTE_IXDATA_SUBTYPE_VECTOR_INDEX
    some { handle with buffer := handle.buffer ++ [header] }

def cte_encoder_write_ixdata_boolean (handle : cte_encoder_t) (value : Bool) :
    Option cte_encoder_t :=
  if handle.position + 1 > handle.capacity then none
  else
    let value_code := if value then CTE_IXDATA_CONST_VAL_TRUE else CTE_IXDATA_CONST_VAL_FALSE
    if value_code ≥ 0x02 then none
    else
      let header := CTE_TAG_IXDATA_FIELD ||| ((value_code &&& 0x0F) <<< 2) |||
        CTE_IXDATA_SUBTYPE_CONSTANT
      some { handle with buffer := handle.buffer ++ [header] }

/-- `cte_encoder_begin_vector_data` composed with the caller's `memcpy` of the
payload into the returned pointer (the `cte_encoder_add_vector_data` form). -/
def cte_encoder_add_vector_data (handle : cte_encoder_t) (payload : List Nat) :
    Option cte_encoder_t :=
  let length := payload.length
  if length ≤ CTE_VECTOR_SHORT_MAX_LEN then
    if handle.position + (1 + length) > handle.capacity then none
    else
      let header := CTE_TAG_VECTOR_DATA ||| CTE_VECTOR_FORMAT_SHORT |||
        (length &&& CTE_VECTOR_SHORT_MAX_LEN)
      some { handle with buffer := handle.buffer ++ header :: payload }
  else if CTE_VECTOR_EXTENDED_MIN_LEN ≤ length ∧ length ≤ CTE_VECTOR_EXTENDED_MAX_LEN then
    if handle.position + (2 + length) > handle.capacity then none
    else
      let LH := (length >>> 8) &&& 0x07
      let header1 := CTE_TAG_VECTOR_DATA ||| CTE_VECTOR_FORMAT_EXTENDED ||| (LH <<< 2)
      let header2 := length &&& 0xFF
      some { handle with buffer := handle.buffer ++ header1 :: header2 :: payload }
  else none

def cte_encoder_add_public_key_vector (enc : cte_encoder_t) (key_count size_code : Nat)
    (keys : List Nat) : Option cte_encoder_t :=
  if key_count = 0 ∨ key_count > CTE_VECTOR_MAX_LEN then none
  else
    match get_public_key_size size_code with
    | none => none
    | some item_size =>
      let total_data_size := key_count * item_size
      if enc.position + (1 + total_data_size) > enc.capacity then none
      else
        let header := CTE_TAG_PUBLIC_KEY_VECTOR ||| ((key_count &&& 0x0F) <<< 2) |||
          (size_code &&& CTE_VECTOR_ENTRY_SIZE_MASK)
        some { enc with buffer := enc.buffer ++ header :: keys.take total_data_size }

def cte_encoder_add_signature_vector (enc : cte_encoder_t) (sig_count size_code : Nat)
    (sigs : List Nat) : Option cte_encoder_t :=
  if sig_count = 0 ∨ sig_count > CTE_VECTOR_MAX_LEN then none
  else
    match get_signature_item_size size_code with
    | none => none
    | some item_size =>
      let total_data_size := sig_count * item_size
      if enc.position + (1 + total_data_size) > enc.capacity then none
      else
        let header := CTE_TAG_SIGNATURE_VECTOR ||| ((sig_count &&& 0x0F) <<< 2) |||
          (size_code &&& CTE_VECTOR_ENTRY_SIZE_MASK)
        some { enc with buffer := enc.buffer ++ header :: sigs.take total_data_size }

/-! ### Decoder (`src/decoder.c`) -/

structure cte_decoder_t where
  data : List Nat
  size : Nat
  position : Nat
  last_vector_count : Nat
  last_vector_data_len : Nat
deriving Repr, DecidableEq

/-- `decoder->data[i]`. -/
def byteAt (d : cte_decoder_t) (i : Nat) : Nat := d.data.getD i 0

/-- `(l.drop start).take len`: the bytes a returned payload pointer designates. -/
def listSlice (l : List Nat) (start len : Nat) : List Nat := (l.drop start).take len

def cte_decoder_init (size : Nat) : Option cte_decoder_t :=
  if size = 0 then none
  else some { data := List.replicate size 0, size := size, position := 0
              last_vector_count := 0, last_vector_data_len := 0 }

def cte_decoder_load (decoder : cte_decoder_t) : List Nat := decoder.data

def cte_decoder_reset (decoder : cte_decoder_t) : cte_decoder_t :=
  { decoder with position := 1 }

def cte_decoder_get_last_vector_count (decoder : cte_decoder_t) : Nat :=
  decoder.last_vector_count

def cte_decoder_get_last_vector_data_payload_length (decoder : cte_decoder_t) : Nat :=
  decoder.last_vector_data_len

/-- A decoder freshly initialised with `cte_decoder_init bytes.length` whose
buffer was then filled with `bytes` through the `cte_decoder_load` pointer. -/
def cte_decoder_with_data (bytes : List Nat) : cte_decoder_t :=
  { data := bytes, size := bytes.length, position := 0
    last_vector_count := 0, last_vector_data_len := 0 }

def _cte_decoder_peek_header_byte (decoder : cte_decoder_t) : Int :=
  if decoder.position + 1 ≤ decoder.size then (byteAt decoder decoder.position : Int) else -1

def _consume_ixdata_header (decoder : cte_decoder_t) (expected_subtype : Nat) :
    Option (Nat × cte_decoder_t) :=
  if decoder.position + 1 > decoder.size then none
  else
    let header := byteAt decoder decoder.position
    if header &&& CTE_TAG_MASK ≠ CTE_TAG_IXDATA_FIELD then none
    else if header &&& CTE_IXDATA_SUBTYPE_MASK ≠ expected_subtype then none
    else some (header, { decoder with position := decoder.position + 1 })

/-- The `for` loop of `_decode_uleb128` with `iters` iterations remaining;
`result` is the `uint64_t` accumulator and `shift` the current shift. -/
def decodeUlebLoop (decoder : cte_decoder_t) (result shift : Nat) :
    Nat → Option (Nat × cte_decoder_t)
  | 0 => none
  | iters + 1 =>
    if decoder.position + 1 > decoder.size then none
    else
      let byte := byteAt decoder decoder.position
      let d1 := { decoder with position := decoder.position + 1 }
      if shift ≥ 64 ∨ (shift = 63 ∧ byte &&& 0xFE ≠ 0) then none
      else
        let result1 := result ||| (((byte &&& 0x7F) <<< shift) % 2 ^ 64)
        if byte &&& 0x80 = 0 then some (result1, d1)
        else decodeUlebLoop d1 result1 (shift + 7) iters

def _decode_uleb128 (decoder : cte_decoder_t) : Option (Nat × cte_decoder_t) :=
  decodeUlebLoop decoder 0 0 10

/-- Reading of an `int64_t` bit pattern: two's complement below `2 ^ 64`. -/
def toInt64 (n : Nat) : Int :=
  if n < 2 ^ 63 then (n : Int) else (n : Int) - 2 ^ 64

/-- The `for` loop of `_decode_sleb128`; `result` is the bit pattern of the
`int64_t` accumulator.  `-((int64_t)1 << shift)` has bit pattern
`2 ^ 64 - (1 <<< shift)`. -/
def decodeSlebLoop (decoder : cte_decoder_t) (result shift : Nat) :
    Nat → Option (Int × cte_decoder_t)
  | 0 => none
  | iters + 1 =>
    if decoder.position + 1 > decoder.size then none
    else
      let byte := byteAt decoder decoder.position
      let d1 := { decoder with position := decoder.position + 1 }
      let result1 := result ||| (((byte &&& 0x7F) <<< shift) % 2 ^ 64)
      let shift1 := shift + 7
      if byte &&& 0x80 = 0 then
        let result2 :=
          if shift1 < 64 ∧ byte &&& 0x40 ≠ 0 then result1 ||| (2 ^ 64 - (1 <<< shift1))
          else result1
        some (toInt64 result2, d1)
      else if shift1 ≥ 64 then none
      else decodeSlebLoop d1 result1 shift1 iters

def _decode_sleb128 (decoder : cte_decoder_t) : Option (Int × cte_decoder_t) :=
  decodeSlebLoop decoder 0 0 10

def _read_fixed_data (decoder : cte_decoder_t) (expected_type_code expected_size : Nat) :
    Option (List Nat × cte_decoder_t) :=
  match _consume_ixdata_header decoder CTE_IXDATA_SUBTYPE_FIXED with
  | none => none
  | some (header, d1) =>
    let TTTT := (header >>> 2) &&& 0x0F
    if TTTT ≠ expected_type_code then none
    else if TTTT ≥ 0x0A then none
    else if d1.position + expected_size > d1.size then none
    else some (listSlice d1.data d1.position expected_size,
               { d1 with position := d1.position + expected_size })

def _parse_vector_data_header (decoder : cte_decoder_t) : Option (Nat × Nat) :=
  if decoder.position + 1 > decoder.size then some (SIZE_MAX, 0)
  else
    let header1 := byteAt decoder decoder.position
    if header1 &&& CTE_TAG_MASK ≠ CTE_TAG_VECTOR_DATA then none
    else if header1 &&& CTE_VECTOR_FORMAT_FLAG_MASK = CTE_VECTOR_FORMAT_SHORT then
      some (header1 &&& CTE_VECTOR_SHORT_MAX_LEN, 1)
    else
      if decoder.position + 2 > decoder.size then some (SIZE_MAX, 0)
      else
        let header2 := byteAt decoder (decoder.position + 1)
        let LH := (header1 >>> 2) &&& 0x07
        let length := (LH <<< 8) ||| header2
        if length < CTE_VECTOR_EXTENDED_MIN_LEN ∨ length > CTE_VECTOR_EXTENDED_MAX_LEN then none
        else some (length, 2)

/-- The classification switch of `cte_decoder_peek_type` on the header byte. -/
def peekClassify (header_byte : Nat) : Int :=
  let tag := header_byte &&& CTE_TAG_MASK
  if tag = CTE_TAG_PUBLIC_KEY_VECTOR then
    CTE_PEEK_TYPE_PK_VECTOR_SIZE_0 + (header_byte &&& CTE_VECTOR_ENTRY_SIZE_MASK : Nat)
  else if tag = CTE_TAG_SIGNATURE_VECTOR then
    CTE_PEEK_TYPE_SIG_VECTOR_SIZE_0 + (header_byte &&& CTE_VECTOR_ENTRY_SIZE_MASK : Nat)
  else if tag = CTE_TAG_IXDATA_FIELD then
    let ss := header_byte &&& CTE_IXDATA_SUBTYPE_MASK
    let detail_code := (header_byte >>> 2) &&& 0x0F
    if ss = CTE_IXDATA_SUBTYPE_VECTOR_INDEX then CTE_PEEK_TYPE_IXDATA_VECTOR_INDEX
    else if ss = CTE_IXDATA_SUBTYPE_VARINT then
      if detail_code = CTE_IXDATA_VARINT_ENC_ULEB128 then CTE_PEEK_TYPE_IXDATA_ULEB128
      else if detail_code = CTE_IXDATA_VARINT_ENC_SLEB128 then CTE_PEEK_TYPE_IXDATA_SLEB128
      else -1
    else if ss = CTE_IXDATA_SUBTYPE_FIXED then
      if detail_code = 0 then CTE_PEEK_TYPE_IXDATA_INT8
      else if detail_code = 1 then CTE_PEEK_TYPE_IXDATA_INT16
      else if detail_code = 2 then CTE_PEEK_TYPE_IXDATA_INT32
      else if detail_code = 3 then CTE_PEEK_TYPE_IXDATA_INT64
      else if detail_code = 4 then CTE_PEEK_TYPE_IXDATA_UINT8
      else if detail_code = 5 then CTE_PEEK_TYPE_IXDATA_UINT16
      else if detail_code = 6 then CTE_PEEK_TYPE_IXDATA_UINT32
      else if detail_code = 7 then CTE_PEEK_TYPE_IXDATA_UINT64
      else if detail_code = 8 then CTE_PEEK_TYPE_IXDATA_FLOAT32
      else if detail_code = 9 then CTE_PEEK_TYPE_IXDATA_FLOAT64
      else -1
    else
      if detail_code = 0 then CTE_PEEK_TYPE_IXDATA_CONST_FALSE
      else if detail_code = 1 then CTE_PEEK_TYPE_IXDATA_CONST_TRUE
      else -1
  else if tag = CTE_TAG_VECTOR_DATA then
    if header_byte &&& CTE_VECTOR_FORMAT_FLAG_MASK ≠ 0 then CTE_PEEK_TYPE_VECTOR_EXTENDED
    else CTE_PEEK_TYPE_VECTOR_SHORT
  else -1

def cte_decoder_peek_type (decoder : cte_decoder_t) : Option (Int × cte_decoder_t) :=
  match (if decoder.position = 0 then
           if byteAt decoder 0 ≠ CTE_VERSION_BYTE then none
           else some { decoder with position := decoder.position + 1 }
         else some decoder) with
  | none => none
  | some d1 =>
    let header_byte := _cte_decoder_peek_header_byte d1
    if header_byte = -1 then some (CTE_PEEK_EOF, d1)
    else some (peekClassify header_byte.toNat, d1)

def _cte_decoder_read_public_key_vector_data (decoder : cte_decoder_t) :
    Option (List Nat × cte_decoder_t) :=
  if decoder.position + 1 > decoder.size then none
  else
    let header := byteAt decoder decoder.position
    if header &&& CTE_TAG_MASK ≠ CTE_TAG_PUBLIC_KEY_VECTOR then none
    else
      let N := (header >>> 2) &&& 0x0F
      let TT := header &&& CTE_VECTOR_ENTRY_SIZE_MASK
      if N = 0 ∨ N > CTE_VECTOR_MAX_LEN then none
      else
        match get_public_key_size TT with
        | none => none
        | some item_size =>
          let total_data_size := N * item_size
          if decoder.position + (1 + total_data_size) > decoder.size then none
          else
            let d1 := { decoder with position := decoder.position + 1, last_vector_count := N }
            some (listSlice d1.data d1.position total_data_size,
                  { d1 with position := d1.position + total_data_size })

def _cte_decoder_read_signature_vector_data (decoder : cte_decoder_t) :
    Option (List Nat × cte_decoder_t) :=
  if decoder.position + 1 > decoder.size then none
  else
    let header := byteAt decoder decoder.position
    if header &&& CTE_TAG_MASK ≠ CTE_TAG_SIGNATURE_VECTOR then none
    else
      let N := (header >>> 2) &&& 0x0F
      let TT := header &&& CTE_VECTOR_ENTRY_SIZE_MASK
      if N = 0 ∨ N > CTE_VECTOR_MAX_LEN then none
      else
        match get_signature_item_size TT with
        | none => none
        | some item_size =>
          let total_data_size := N * item_size
          if decoder.position + (1 + total_data_size) > decoder.size then none
          else
            let d1 := { decoder with position := decoder.position + 1, last_vector_count := N }
            some (listSlice d1.data d1.position total_data_size,
                  { d1 with position := d1.position + total_data_size })

def _cte_decoder_read_ixdata_vector_index (decoder : cte_decoder_t) :
    Option (Nat × cte_decoder_t) :=
  match _consume_ixdata_header decoder CTE_IXDATA_SUBTYPE_VECTOR_INDEX with
  | none => none
  | some (header, d1) => some ((header >>> 2) &&& 0x0F, d1)

def _cte_decoder_read_ixdata_uleb128 (decoder : cte_decoder_t) :
    Option (Nat × cte_decoder_t) :=
  match _consume_ixdata_header decoder CTE_IXDATA_SUBTYPE_VARINT with
  | none => none
  | some (header, d1) =>
    let EEEE := (header >>> 2) &&& 0x0F
    if EEEE ≠ CTE_IXDATA_VARINT_ENC_ULEB128 then none
    else if EEEE ≥ 0x03 then none
    else _decode_uleb128 d1

def _cte_decoder_read_ixdata_sleb128 (decoder : cte_decoder_t) :
    Option (Int × cte_decoder_t) :=
  match _consume_ixdata_header decoder CTE_IXDATA_SUBTYPE_VARINT with
  | none => none
  | some (header, d1) =>
    let EEEE := (header >>> 2) &&& 0x0F
    if EEEE ≠ CTE_IXDATA_VARINT_ENC_SLEB128 then none
    else if EEEE ≥ 0x03 then none
    else _decode_sleb128 d1

def _cte_decoder_read_ixdata_boolean (decoder : cte_decoder_t) :
    Option (Bool × cte_decoder_t) :=
  match _consume_ixdata_header decoder CTE_IXDATA_SUBTYPE_CONSTANT with
  | none => none
  | some (header, d1) =>
    let XXXX := (header >>> 2) &&& 0x0F
    if XXXX = CTE_IXDATA_CONST_VAL_FALSE then some (false, d1)
    else if XXXX = CTE_IXDATA_CONST_VAL_TRUE then some (true, d1)
    else none

def _cte_decoder_read_vector_data_payload (decoder : cte_decoder_t) :
    Option (List Nat × cte_decoder_t) :=
  match _parse_vector_data_header decoder with
  | none => none
  | some (length, header_size) =>
    if length = SIZE_MAX ∨ header_size = 0 then none
    else if decoder.position + (header_size + length) > decoder.size then none
    else
      let d1 := { decoder with
        position := decoder.position + header_size
        last_vector_data_len := length }
      some (listSlice d1.data d1.position length, { d1 with position := d1.position + length })

/-! ### Generic arithmetic and list lemmas -/

theorem lor_shiftLeft_eq_add {a : Nat} (s b : Nat) (h : a < 2 ^ s) :
    a ||| (b <<< s) = b * 2 ^ s + a := by
  rw [Nat.shiftLeft_eq, Nat.lor_comm, Nat.mul_comm b (2 ^ s)]
  exact (Nat.mul_add_lt_is_or h b).symm

set_option maxRecDepth 4000 in
theorem byte_and_192 : ∀ b < 256, b &&& 0xC0 = b / 64 * 64 := by decide

set_option maxRecDepth 4000 in
theorem byte_and_128 : ∀ b < 256, b &&& 0x80 = b / 128 % 2 * 128 := by decide

set_option maxRecDepth 4000 in
theorem byte_and_254 : ∀ b < 256, b &&& 0xFE = b / 2 * 2 := by decide

set_option maxRecDepth 4000 in
theorem byte_and_32 : ∀ b < 256, b &&& 0x20 = b / 32 % 2 * 32 := by decide

set_option maxRecDepth 4000 in
theorem byte_and_64 : ∀ b < 256, b &&& 0x40 = b / 64 % 2 * 64 := by decide

theorem and_3_eq (b : Nat) : b &&& 3 = b % 4 := by
  have h := Nat.and_pow_two_sub_one_eq_mod b 2
  norm_num at h
  exact h

theorem and_15_eq (b : Nat) : b &&& 0x0F = b % 16 := by
  have h := Nat.and_pow_two_sub_one_eq_mod b 4
  norm_num at h
  exact h

theorem and_7_eq (b : Nat) : b &&& 0x07 = b % 8 := by
  have h := Nat.and_pow_two_sub_one_eq_mod b 3
  norm_num at h
  exact h

theorem and_31_eq (b : Nat) : b &&& 0x1F = b % 32 := by
  have h := Nat.and_pow_two_sub_one_eq_mod b 5
  norm_num at h
  exact h

theorem and_127_eq (b : Nat) : b &&& 0x7F = b % 128 := by
  have h := Nat.and_pow_two_sub_one_eq_mod b 7
  norm_num at h
  exact h

theorem and_255_eq (b : Nat) : b &&& 0xFF = b % 256 := by
  have h := Nat.and_pow_two_sub_one_eq_mod b 8
  norm_num at h
  exact h

theorem shiftRight_eq_div (b k : Nat) : b >>> k = b / 2 ^ k :=
  Nat.shiftRight_eq_div_pow b k

theorem getD_append_mid (pre l post : List Nat) (k : Nat) (hk : k < l.length) :
    (pre ++ l ++ post).getD (pre.length + k) 0 = l.getD k 0 := by
  rw [List.append_assoc]
  rw [List.getD_eq_getElem?_getD, List.getElem?_append_right (by omega)]
  simp only [Nat.add_sub_cancel_left]
  rw [List.getElem?_append_left hk]
  rw [List.getD_eq_getElem?_getD]

theorem slice_append_mid (pre l post : List Nat) :
    listSlice (pre ++ l ++ post) pre.length l.length = l := by
  unfold listSlice
  rw [List.append_assoc, List.drop_left, List.take_left]

/-! ### ULEB128 correctness -/

def ulebVal : List Nat → Nat
  | [] => 0
  | b :: rest => b % 128 + 128 * ulebVal rest

def ulebWf : List Nat → Bool
  | [] => false
  | [b] => decide (b < 128)
  | b :: rest => decide (128 ≤ b) && decide (b < 256) && ulebWf rest

theorem pow_split (i : Nat) (h : 7 * i ≤ 57) :
    (2 : Nat) ^ (64 - 7 * i) = 128 * 2 ^ (64 - 7 * (i + 1)) := by
  rw [show 64 - 7 * i = 7 + (64 - 7 * (i + 1)) by omega, pow_add]
  norm_num

theorem decodeUlebLoop_spec (bs : List Nat) :
    ∀ (i result : Nat) (pre post : List Nat) (d : cte_decoder_t),
    ulebWf bs = true → bs.length + i ≤ 10 →
    ulebVal bs < 2 ^ (64 - 7 * i) → result < 2 ^ (7 * i) →
    d.data = pre ++ bs ++ post → d.position = pre.length → d.size = d.data.length →
    decodeUlebLoop d result (7 * i) (10 - i) =
      some (result + ulebVal bs * 2 ^ (7 * i), { d with position := pre.length + bs.length }) := by
  induction bs with
  | nil => intro i result pre post d hwf; simp [ulebWf] at hwf
  | cons b rest ih =>
    intro i result pre post d hwf hlen hval hres hdata hpos hsize
    have hlen1 : rest.length + 1 + i ≤ 10 := by simpa using hlen
    have hi9 : i ≤ 9 := by omega
    obtain ⟨it, hit⟩ : ∃ it, 10 - i = it + 1 := ⟨9 - i, by omega⟩
    rw [hit]
    have hbyte : byteAt d d.position = b := by
      have h0 : (0 : Nat) < (b :: rest).length := by simp
      have h1 := getD_append_mid pre (b :: rest) post 0 h0
      simpa [byteAt, hdata, hpos] using h1
    have hbounds : ¬ (d.position + 1 > d.size) := by
      have hsz : d.size = pre.length + ((b :: rest).length + post.length) := by
        rw [hsize, hdata]
        simp
        omega
      rw [hpos, hsz]
      simp only [List.length_cons]
      omega
    cases rest with
    | nil =>
      have hb : b < 128 := by simpa [ulebWf] using hwf
      have hvb : ulebVal [b] = b := by simp [ulebVal, Nat.mod_eq_of_lt hb]
      rw [hvb] at hval
      have hlt : b * 2 ^ (7 * i) < 2 ^ 64 := by
        calc b * 2 ^ (7 * i) < 2 ^ (64 - 7 * i) * 2 ^ (7 * i) :=
              (Nat.mul_lt_mul_right (Nat.pos_pow_of_pos _ (by norm_num))).mpr hval
          _ = 2 ^ 64 := by rw [← pow_add]; congr 1; omega
      have hguard : ¬ ((7 : Nat) * i ≥ 64 ∨ (7 * i = 63 ∧ b &&& 0xFE ≠ 0)) := by
        rintro (h64 | ⟨h63, hfe⟩)
        · omega
        · have hi : i = 9 := by omega
          have hb1 : b ≤ 1 := by
            rw [hi] at hval
            norm_num at hval
            omega
          interval_cases b <;> simp_all
      have hshift : (b &&& 0x7F) <<< (7 * i) % 2 ^ 64 = b * 2 ^ (7 * i) := by
        rw [and_127_eq, Nat.mod_eq_of_lt hb, Nat.shiftLeft_eq]
        exact Nat.mod_eq_of_lt hlt
      have hterm : b &&& 0x80 = 0 := by
        have h2 := byte_and_128 b (by omega)
        omega
      have hlor : result ||| b * 2 ^ (7 * i) = result + b * 2 ^ (7 * i) := by
        have h3 := lor_shiftLeft_eq_add (7 * i) b hres
        rw [Nat.shiftLeft_eq] at h3
        omega
      simp only [decodeUlebLoop, hbyte]
      rw [if_neg hbounds, if_neg hguard, hshift, hlor, if_pos hterm]
      rw [hvb, hpos]
      rw [Nat.add_comm result (b * 2 ^ (7 * i))]
      simp
    | cons r rs =>
      have hwf3 : 128 ≤ b ∧ b < 256 ∧ ulebWf (r :: rs) = true := by
        simp [ulebWf] at hwf
        tauto
      obtain ⟨hb128, hb256, hwfrest⟩ := hwf3
      have hi8 : i ≤ 8 := by
        simp only [List.length_cons] at hlen
        omega
      have hguard : ¬ ((7 : Nat) * i ≥ 64 ∨ (7 * i = 63 ∧ b &&& 0xFE ≠ 0)) := by
        rintro (h64 | ⟨h63, hfe⟩) <;> omega
      have hcont : ¬ (b &&& 0x80 = 0) := by
        have h2 := byte_and_128 b hb256
        omega
      have hvsplit : ulebVal (b :: r :: rs) = b % 128 + 128 * ulebVal (r :: rs) := rfl
      have hps : (2 : Nat) ^ (64 - 7 * i) = 128 * 2 ^ (64 - 7 * (i + 1)) :=
        pow_split i (by omega)
      have hps2 : (2 : Nat) ^ (7 * (i + 1)) = 128 * 2 ^ (7 * i) := by
        rw [show 7 * (i + 1) = 7 + 7 * i by omega, pow_add]
        norm_num
      have hvrest : ulebVal (r :: rs) < 2 ^ (64 - 7 * (i + 1)) := by
        rw [hvsplit, hps] at hval
        omega
      have hshift : (b &&& 0x7F) <<< (7 * i) % 2 ^ 64 = b % 128 * 2 ^ (7 * i) := by
        rw [and_127_eq, Nat.shiftLeft_eq]
        apply Nat.mod_eq_of_lt
        calc b % 128 * 2 ^ (7 * i) < 128 * 2 ^ (7 * i) :=
              (Nat.mul_lt_mul_right (Nat.pos_pow_of_pos _ (by norm_num))).mpr
                (Nat.mod_lt b (by norm_num))
          _ ≤ 128 * 2 ^ 56 := by
              have : (2 : Nat) ^ (7 * i) ≤ 2 ^ 56 := Nat.pow_le_pow_right (by norm_num) (by omega)
              omega
          _ < 2 ^ 64 := by norm_num
      have hlor : result ||| b % 128 * 2 ^ (7 * i) = b % 128 * 2 ^ (7 * i) + result := by
        have h3 := lor_shiftLeft_eq_add (7 * i) (b % 128) hres
        rw [Nat.shiftLeft_eq] at h3
        omega
      have hres1 : b % 128 * 2 ^ (7 * i) + result < 2 ^ (7 * (i + 1)) := by
        rw [hps2]
        have hm : b % 128 < 128 := Nat.mod_lt b (by norm_num)
        have : b % 128 * 2 ^ (7 * i) ≤ 127 * 2 ^ (7 * i) :=
          Nat.mul_le_mul_right _ (by omega)
        omega
      have happ : d.data = (pre ++ [b]) ++ (r :: rs) ++ post := by
        rw [hdata]
        simp
      have hrec := ih (i + 1) (b % 128 * 2 ^ (7 * i) + result) (pre ++ [b]) post
        { d with position := d.position + 1 } hwfrest (by simp at hlen ⊢; omega) hvrest hres1
        (by simpa using happ) (by simp [hpos]) (by simpa using hsize)
      simp only [decodeUlebLoop, hbyte]
      rw [if_neg hbounds, if_neg hguard, hshift, hlor, if_neg hcont]
      rw [show 7 * i + 7 = 7 * (i + 1) by omega, show it = 10 - (i + 1) by omega]
      rw [hrec]
      simp only [Option.some.injEq, Prod.mk.injEq]
      refine ⟨?_, ?_⟩
      · rw [hvsplit, hps2]
        ring
      · congr 1
        simp only [List.length_append, List.length_cons, List.length_nil]
        omega

theorem _decode_uleb128_spec (bs pre post : List Nat) (d : cte_decoder_t)
    (hwf : ulebWf bs = true) (hlen : bs.length ≤ 10) (hval : ulebVal bs < 2 ^ 64)
    (hdata : d.data = pre ++ bs ++ post) (hpos : d.position = pre.length)
    (hsize : d.size = d.data.length) :
    _decode_uleb128 d = some (ulebVal bs, { d with position := pre.length + bs.length }) := by
  have h := decodeUlebLoop_spec bs 0 0 pre post d hwf (by omega)
    (by norm_num; exact hval) (by norm_num) hdata hpos hsize
  simpa [_decode_uleb128] using h

theorem uleb128Bytes_unfold (v : Nat) : uleb128Bytes v =
    if v >>> 7 = 0 then [v &&& 0x7f] else (v &&& 0x7f ||| 0x80) :: uleb128Bytes (v >>> 7) := by
  rw [uleb128Bytes]

theorem uleb128Bytes_ne_nil (v : Nat) : uleb128Bytes v ≠ [] := by
  rw [uleb128Bytes_unfold]
  split <;> simp

theorem byte_lor_128 (a : Nat) (h : a < 128) : a ||| 0x80 = a + 128 := by
  have h1 := lor_shiftLeft_eq_add 7 1 (show a < 2 ^ 7 by omega)
  rw [show (1 : Nat) <<< 7 = 128 from rfl] at h1
  rw [h1]
  ring

theorem uleb128Bytes_spec (v : Nat) :
    ulebWf (uleb128Bytes v) = true ∧ ulebVal (uleb128Bytes v) = v := by
  induction v using Nat.strong_induction_on with
  | _ v ih =>
    rw [uleb128Bytes_unfold]
    by_cases h : v >>> 7 = 0
    · rw [if_pos h]
      rw [shiftRight_eq_div] at h
      norm_num at h
      have hv : v < 128 := by omega
      refine ⟨by simp only [ulebWf, decide_eq_true_eq, and_127_eq]; omega, ?_⟩
      simp [ulebVal, and_127_eq, Nat.mod_eq_of_lt hv]
    · rw [if_neg h]
      rw [shiftRight_eq_div] at h
      norm_num at h
      have hv : 128 ≤ v := by
        by_contra hc
        exact h (Nat.div_eq_of_lt (by omega))
      have hlt : v / 128 < v := Nat.div_lt_self (by omega) (by norm_num)
      have ihh := ih (v / 128) hlt
      have hbyte : v &&& 0x7f ||| 0x80 = v % 128 + 128 := by
        rw [and_127_eq]
        exact byte_lor_128 _ (Nat.mod_lt v (by norm_num))
      rw [shiftRight_eq_div]
      norm_num
      rw [hbyte]
      cases hrest : uleb128Bytes (v / 128) with
      | nil => exact absurd hrest (uleb128Bytes_ne_nil _)
      | cons c cs =>
        rw [hrest] at ihh
        constructor
        · show (decide (128 ≤ v % 128 + 128) && decide (v % 128 + 128 < 256) &&
            ulebWf (c :: cs)) = true
          have hm : v % 128 < 128 := Nat.mod_lt v (by norm_num)
          simp [ihh.1]
          omega
        · show (v % 128 + 128) % 128 + 128 * ulebVal (c :: cs) = v
          rw [ihh.2]
          omega

theorem uleb128Bytes_length_le : ∀ k v, 1 ≤ k → v < 2 ^ (7 * k) →
    (uleb128Bytes v).length ≤ k := by
  intro k
  induction k with
  | zero => intro v h1; omega
  | succ k ihk =>
    intro v _ hv
    rw [uleb128Bytes_unfold]
    by_cases h : v >>> 7 = 0
    · simp [h]
    · rw [if_neg h]
      simp only [List.length_cons]
      have hk1 : 1 ≤ k := by
        by_contra hk0
        have hk : k = 0 := by omega
        subst hk
        rw [shiftRight_eq_div] at h
        norm_num at hv h
        exact h (Nat.div_eq_of_lt hv)
      have hdiv : v >>> 7 < 2 ^ (7 * k) := by
        rw [shiftRight_eq_div]
        norm_num
        rw [Nat.div_lt_iff_lt_mul (by norm_num)]
        calc v < 2 ^ (7 * (k + 1)) := hv
          _ = 2 ^ (7 * k) * 128 := by rw [show 7 * (k + 1) = 7 * k + 7 by omega, pow_add]; norm_num
      have := ihk (v >>> 7) hk1 hdiv
      omega

/-! ### SLEB128 correctness -/

/-- The bit pattern of an `int64_t` value. -/
def toNat64 (v : Int) : Nat := (v % 2 ^ 64).toNat

theorem toNat64_int (v : Int) : (toNat64 v : Int) = v % 2 ^ 64 := by
  unfold toNat64
  omega

theorem lor_shiftmod (s b a : Nat) (hs : s ≤ 63) (ha : a < 2 ^ s) :
    a ||| ((b <<< s) % 2 ^ 64) = b % 2 ^ (64 - s) * 2 ^ s + a := by
  have h2 : (2 : Nat) ^ 64 = 2 ^ (64 - s) * 2 ^ s := by
    rw [← pow_add]
    congr 1
    omega
  rw [Nat.shiftLeft_eq, h2, Nat.mul_mod_mul_right]
  have h3 := lor_shiftLeft_eq_add s (b % 2 ^ (64 - s)) ha
  rw [Nat.shiftLeft_eq] at h3
  exact h3

theorem lor_highmask (m a : Nat) (hm : m ≤ 64) (ha : a < 2 ^ m) :
    a ||| (2 ^ 64 - 2 ^ m) = 2 ^ 64 - 2 ^ m + a := by
  have h1 : (2 : Nat) ^ 64 - 2 ^ m = 2 ^ m * (2 ^ (64 - m) - 1) := by
    rw [Nat.mul_sub, ← pow_add, Nat.mul_one]
    congr 2
    omega
  rw [h1, Nat.lor_comm]
  exact (Nat.mul_add_lt_is_or ha _).symm

theorem sleb128Bytes_eq_terminal (v : Int)
    (h : (v / 128 = 0 ∧ (v % 128).toNat &&& 0x40 = 0) ∨
         (v / 128 = -1 ∧ (v % 128).toNat &&& 0x40 ≠ 0)) :
    sleb128Bytes v = [(v % 128).toNat] := by
  rw [sleb128Bytes]
  rw [if_pos h]

theorem sleb128Bytes_eq_cont (v : Int)
    (h : ¬ ((v / 128 = 0 ∧ (v % 128).toNat &&& 0x40 = 0) ∨
            (v / 128 = -1 ∧ (v % 128).toNat &&& 0x40 ≠ 0))) :
    sleb128Bytes v = ((v % 128).toNat ||| 0x80) :: sleb128Bytes (v / 128) := by
  rw [sleb128Bytes]
  rw [if_neg h]

theorem sleb_step_mod (i : Nat) (v0 v : Int) (t byte : Nat) (hi : i ≤ 8)
    (hv : v = v0 / 2 ^ (7 * i)) (ht : (t : Int) = v0 % 2 ^ 64) (hb : (byte : Int) = v % 128)
    (hlo : -(2 ^ 63) ≤ v0) (hhi : v0 < 2 ^ 63) :
    byte % 2 ^ (64 - 7 * i) * 2 ^ (7 * i) + t % 2 ^ (7 * i) = t % 2 ^ (7 * (i + 1)) := by
  interval_cases i <;> omega

theorem sleb_bound (i : Nat) (t byte : Nat) (hby : byte < 128) (hi : i ≤ 8) :
    byte % 2 ^ (64 - 7 * i) * 2 ^ (7 * i) + t % 2 ^ (7 * i) < 2 ^ (7 * i + 7) := by
  interval_cases i <;> omega

theorem ediv_step (i : Nat) (v0 v : Int) (hi : i ≤ 8) (hv : v = v0 / 2 ^ (7 * i)) :
    v / 128 = v0 / 2 ^ (7 * (i + 1)) := by
  interval_cases i <;> omega

theorem sleb_term_sign (i : Nat) (v0 v : Int) (t byte : Nat)
    (hv : v = v0 / 2 ^ (7 * i)) (hi : i ≤ 9)
    (ht : (t : Int) = v0 % 2 ^ 64) (hb : (byte : Int) = v % 128)
    (hlo : -(2 ^ 63) ≤ v0) (hhi : v0 < 2 ^ 63)
    (hstop : (v / 128 = 0 ∧ byte / 64 % 2 * 64 = 0) ∨ (v / 128 = -1 ∧ byte / 64 % 2 * 64 ≠ 0))
    (hsign : 7 * i + 7 < 64 ∧ byte / 64 % 2 * 64 ≠ 0) :
    toInt64 (2 ^ 64 - 2 ^ (7 * i + 7) + (byte % 2 ^ (64 - 7 * i) * 2 ^ (7 * i) +
      t % 2 ^ (7 * i))) = v0 := by
  simp only [toInt64]
  split <;> (interval_cases i <;> omega)

theorem sleb_term_nosign (i : Nat) (v0 v : Int) (t byte : Nat)
    (hv : v = v0 / 2 ^ (7 * i)) (hi : i ≤ 9)
    (ht : (t : Int) = v0 % 2 ^ 64) (hb : (byte : Int) = v % 128)
    (hlo : -(2 ^ 63) ≤ v0) (hhi : v0 < 2 ^ 63)
    (hstop : (v / 128 = 0 ∧ byte / 64 % 2 * 64 = 0) ∨ (v / 128 = -1 ∧ byte / 64 % 2 * 64 ≠ 0))
    (hsign : ¬ (7 * i + 7 < 64 ∧ byte / 64 % 2 * 64 ≠ 0)) :
    toInt64 (byte % 2 ^ (64 - 7 * i) * 2 ^ (7 * i) + t % 2 ^ (7 * i)) = v0 := by
  simp only [toInt64]
  split <;> (interval_cases i <;> omega)

theorem decodeSlebLoop_spec : ∀ (n : Nat) (v : Int), v.natAbs = n →
    ∀ (v0 : Int) (i : Nat) (pre post : List Nat) (d : cte_decoder_t),
    v = v0 / 2 ^ (7 * i) →
    -(2 ^ 63) ≤ v0 → v0 < 2 ^ 63 → i ≤ 9 →
    d.data = pre ++ sleb128Bytes v ++ post →
    d.position = pre.length → d.size = d.data.length →
    decodeSlebLoop d (toNat64 v0 % 2 ^ (7 * i)) (7 * i) (10 - i) =
      some (v0, { d with position := pre.length + (sleb128Bytes v).length }) := by
  intro n
  induction n using Nat.strong_induction_on with
  | _ n ih =>
    intro v hn v0 i pre post d hv hlo hhi hi hdata hpos hsize
    obtain ⟨it, hit⟩ : ∃ it, 10 - i = it + 1 := ⟨9 - i, by omega⟩
    have hbyte128 : (v % 128).toNat < 128 := by omega
    have hbv : (((v % 128).toNat : Nat) : Int) = v % 128 := by omega
    have ht : ((toNat64 v0 : Nat) : Int) = v0 % 2 ^ 64 := toNat64_int v0
    have hand64 := byte_and_64 (v % 128).toNat (by omega)
    have hlt : toNat64 v0 % 2 ^ (7 * i) < 2 ^ (7 * i) :=
      Nat.mod_lt _ (Nat.pos_pow_of_pos _ (by norm_num))
    by_cases hstop : (v / 128 = 0 ∧ (v % 128).toNat &&& 0x40 = 0) ∨
        (v / 128 = -1 ∧ (v % 128).toNat &&& 0x40 ≠ 0)
    · -- terminal byte
      have hbs := sleb128Bytes_eq_terminal v hstop
      rw [hand64] at hstop
      rw [hbs] at hdata
      rw [hbs]
      have hbyteAt : byteAt d d.position = (v % 128).toNat := by
        have h0 : (0 : Nat) < ([(v % 128).toNat] : List Nat).length := by simp
        have h1 := getD_append_mid pre _ post 0 h0
        simpa [byteAt, hdata, hpos] using h1
      have hsz : d.size = pre.length + 1 + post.length := by
        rw [hsize, hdata]
        simp only [List.length_append, List.length_cons, List.length_nil]
        try omega
      have hbounds : ¬ (d.position + 1 > d.size) := by omega
      rw [hit]
      simp only [decodeSlebLoop, hbyteAt]
      rw [if_neg hbounds]
      rw [if_pos (show (v % 128).toNat &&& 0x80 = 0 by
        have h2 := byte_and_128 (v % 128).toNat (by omega)
        omega)]
      rw [and_127_eq, Nat.mod_eq_of_lt hbyte128]
      rw [lor_shiftmod (7 * i) _ _ (by omega) hlt]
      by_cases hsign : 7 * i + 7 < 64 ∧ (v % 128).toNat &&& 0x40 ≠ 0
      · have hi8 : i ≤ 8 := by omega
        rw [if_pos hsign]
        rw [hand64] at hsign
        rw [Nat.one_shiftLeft]
        rw [lor_highmask (7 * i + 7) _ (by omega) (sleb_bound i _ _ hbyte128 hi8)]
        simp only [Option.some.injEq, Prod.mk.injEq]
        refine ⟨sleb_term_sign i v0 v _ _ hv hi ht hbv hlo hhi hstop hsign, ?_⟩
        congr 1
        simp only [List.length_cons, List.length_nil]
        omega
      · rw [if_neg hsign]
        rw [hand64] at hsign
        simp only [Option.some.injEq, Prod.mk.injEq]
        refine ⟨sleb_term_nosign i v0 v _ _ hv hi ht hbv hlo hhi hstop hsign, ?_⟩
        congr 1
        simp only [List.length_cons, List.length_nil]
        omega
    · -- continuation byte
      have hbs := sleb128Bytes_eq_cont v hstop
      rw [byte_lor_128 _ hbyte128] at hbs
      rw [hand64] at hstop
      have hvne : ¬ (v = 0) ∧ ¬ (v = -1) := by
        constructor <;> (intro h; exact hstop (by omega))
      have hi8 : i ≤ 8 := by
        by_contra hc
        have hi9 : i = 9 := by omega
        rw [hi9] at hv
        norm_num at hv
        omega
      rw [hbs] at hdata
      rw [hbs]
      have hbyteAt : byteAt d d.position = (v % 128).toNat + 128 := by
        have h0 : (0 : Nat) < (((v % 128).toNat + 128) :: sleb128Bytes (v / 128)).length := by
          simp
        have h1 := getD_append_mid pre _ post 0 h0
        simpa [byteAt, hdata, hpos] using h1
      have hsz : d.size = pre.length + (1 + (sleb128Bytes (v / 128)).length) + post.length := by
        rw [hsize, hdata]
        simp only [List.length_append, List.length_cons, List.length_nil]
        try omega
      have hbounds : ¬ (d.position + 1 > d.size) := by omega
      rw [hit]
      simp only [decodeSlebLoop, hbyteAt]
      rw [if_neg hbounds]
      rw [if_neg (show ¬ ((v % 128).toNat + 128) &&& 0x80 = 0 by
        have h2 := byte_and_128 ((v % 128).toNat + 128) (by omega)
        omega)]
      rw [if_neg (show ¬ (7 * i + 7 ≥ 64) by omega)]
      rw [and_127_eq, (show ((v % 128).toNat + 128) % 128 = (v % 128).toNat by omega)]
      rw [lor_shiftmod (7 * i) _ _ (by omega) hlt]
      rw [sleb_step_mod i v0 v _ _ hi8 hv ht hbv hlo hhi]
      rw [show 7 * i + 7 = 7 * (i + 1) by omega, show it = 10 - (i + 1) by omega]
      have harg : (v / 128).natAbs < n := by omega
      have hrec := ih _ harg (v / 128) rfl v0 (i + 1) (pre ++ [(v % 128).toNat + 128]) post
        { d with position := d.position + 1 }
        (ediv_step i v0 v hi8 hv)
        hlo hhi (by omega)
        (by rw [hdata]; simp)
        (by simp [hpos])
        (by simpa using hsize)
      rw [hrec]
      simp only [Option.some.injEq, Prod.mk.injEq, true_and]
      congr 1
      simp only [List.length_append, List.length_cons, List.length_nil]
      omega

theorem _decode_sleb128_spec (v0 : Int) (pre post : List Nat) (d : cte_decoder_t)
    (hlo : -(2 ^ 63) ≤ v0) (hhi : v0 < 2 ^ 63)
    (hdata : d.data = pre ++ sleb128Bytes v0 ++ post) (hpos : d.position = pre.length)
    (hsize : d.size = d.data.length) :
    _decode_sleb128 d = some (v0, { d with position := pre.length + (sleb128Bytes v0).length }) := by
  have h := decodeSlebLoop_spec v0.natAbs v0 rfl v0 0 pre post d (by norm_num) hlo hhi
    (by norm_num) hdata hpos hsize
  simpa [_decode_sleb128, Nat.mod_one] using h

/-! ### Encoder loop: on success the emitted bytes are the pure LEB sequences -/

theorem encodeUlebLoop_unfold (p c wo v i : Nat) : encodeUlebLoop p c wo v i =
    if p + (wo + i + 1) > c then none
    else if v >>> 7 = 0 then some [v &&& 0x7f]
    else match encodeUlebLoop p c wo (v >>> 7) (i + 1) with
      | none => none
      | some rest => some ((v &&& 0x7f ||| 0x80) :: rest) := by
  rw [encodeUlebLoop]

theorem encodeUlebLoop_eq : ∀ (v p c wo i : Nat) (bs : List Nat),
    encodeUlebLoop p c wo v i = some bs → bs = uleb128Bytes v := by
  intro v
  induction v using Nat.strong_induction_on with
  | _ v ih =>
    intro p c wo i bs h
    rw [encodeUlebLoop_unfold] at h
    rw [uleb128Bytes_unfold]
    by_cases hcap : p + (wo + i + 1) > c
    · rw [if_pos hcap] at h
      exact absurd h (by simp)
    · rw [if_neg hcap] at h
      by_cases hz : v >>> 7 = 0
      · rw [if_pos hz] at h
        rw [if_pos hz]
        simp only [Option.some.injEq] at h
        exact h.symm
      · rw [if_neg hz] at h
        rw [if_neg hz]
        cases hrec : encodeUlebLoop p c wo (v >>> 7) (i + 1) with
        | none => rw [hrec] at h; exact absurd h (by simp)
        | some rest =>
          rw [hrec] at h
          simp only [Option.some.injEq] at h
          have hlt : v >>> 7 < v := by
            rw [shiftRight_eq_div] at hz ⊢
            norm_num at hz ⊢
            omega
          rw [← h, ih (v >>> 7) hlt p c wo (i + 1) rest hrec]

theorem encodeSlebLoop_unfold (p c wo : Nat) (v : Int) (i : Nat) :
    encodeSlebLoop p c wo v i =
    if p + (wo + i + 1) > c then none
    else if (v / 128 = 0 ∧ (v % 128).toNat &&& 0x40 = 0) ∨
            (v / 128 = -1 ∧ (v % 128).toNat &&& 0x40 ≠ 0) then some [(v % 128).toNat]
    else match encodeSlebLoop p c wo (v / 128) (i + 1) with
      | none => none
      | some rest => some (((v % 128).toNat ||| 0x80) :: rest) := by
  rw [encodeSlebLoop]

theorem encodeSlebLoop_eq : ∀ (n : Nat) (v : Int), v.natAbs = n →
    ∀ (p c wo i : Nat) (bs : List Nat),
    encodeSlebLoop p c wo v i = some bs → bs = sleb128Bytes v := by
  intro n
  induction n using Nat.strong_induction_on with
  | _ n ih =>
    intro v hn p c wo i bs h
    rw [encodeSlebLoop_unfold] at h
    by_cases hcap : p + (wo + i + 1) > c
    · rw [if_pos hcap] at h
      exact absurd h (by simp)
    · rw [if_neg hcap] at h
      by_cases hstop : (v / 128 = 0 ∧ (v % 128).toNat &&& 0x40 = 0) ∨
          (v / 128 = -1 ∧ (v % 128).toNat &&& 0x40 ≠ 0)
      · rw [if_pos hstop] at h
        rw [sleb128Bytes_eq_terminal v hstop]
        simp only [Option.some.injEq] at h
        exact h.symm
      · rw [if_neg hstop] at h
        rw [sleb128Bytes_eq_cont v hstop]
        cases hrec : encodeSlebLoop p c wo (v / 128) (i + 1) with
        | none => rw [hrec] at h; exact absurd h (by simp)
        | some rest =>
          rw [hrec] at h
          simp only [Option.some.injEq] at h
          have hand64 := byte_and_64 (v % 128).toNat (by omega)
          have hvne : ¬ (v = 0) ∧ ¬ (v = -1) := by
            constructor <;> (intro hq; rw [hand64] at hstop; exact hstop (by omega))
          have hlt : (v / 128).natAbs < n := by omega
          rw [← h, ih _ hlt (v / 128) rfl p c wo (i + 1) rest hrec]

/-! ### Field-constructor calls and the encode/decode round trip -/

/-- The byte width of each IxData fixed type code (`sizeof` in the C writers
and readers, per the LIP-0001 table). -/
def fixedSize : Nat → Nat
  | 0x00 => 1
  | 0x01 => 2
  | 0x02 => 4
  | 0x03 => 8
  | 0x04 => 1
  | 0x05 => 2
  | 0x06 => 4
  | 0x07 => 8
  | 0x08 => 4
  | _ => 8

/-- One encoder field-constructor call.  Fixed scalars and vector payloads
carry their little-endian byte images, as the C API receives them through
pointers. -/
inductive FieldOp where
  | uleb (v : Nat)
  | sleb (v : Int)
  | fixed (tc : Nat) (bytes : List Nat)
  | boolean (b : Bool)
  | index (i : Nat)
  | vecData (payload : List Nat)
  | pkVec (count size_code : Nat) (keys : List Nat)
  | sigVec (count size_code : Nat) (sigs : List Nat)
deriving Repr, DecidableEq

def bytesOk (l : List Nat) : Prop := ∀ b ∈ l, b < 256

instance (l : List Nat) : Decidable (bytesOk l) := by
  unfold bytesOk
  infer_instance

/-- The valid argument domain of each constructor: any `uint64_t` / `int64_t`,
fixed type codes 0-9, index 0-15, vector-data length 0-1197, vector count
1-15 with a valid size code. -/
def validOp : FieldOp → Prop
  | .uleb v => v < 2 ^ 64
  | .sleb v => -(2 ^ 63) ≤ v ∧ v < 2 ^ 63
  | .fixed tc bytes => tc ≤ 9 ∧ bytes.length = fixedSize tc ∧ bytesOk bytes
  | .boolean _ => True
  | .index i => i ≤ 15
  | .vecData payload => payload.length ≤ 1197 ∧ bytesOk payload
  | .pkVec n s keys =>
      1 ≤ n ∧ n ≤ 15 ∧ s ≤ 3 ∧ keys.length = n * (get_public_key_size s).getD 0 ∧ bytesOk keys
  | .sigVec n s sigs =>
      1 ≤ n ∧ n ≤ 15 ∧ s ≤ 3 ∧ sigs.length = n * (get_signature_item_size s).getD 0 ∧ bytesOk sigs

instance (op : FieldOp) : Decidable (validOp op) := by
  cases op <;> (unfold validOp; infer_instance)

/-- The bytes each successful constructor call appends to the buffer. -/
def fieldBytes : FieldOp → List Nat
  | .uleb v => 0x85 :: uleb128Bytes v
  | .sleb v => 0x89 :: sleb128Bytes v
  | .fixed tc bytes => (0x82 + 4 * tc) :: bytes
  | .boolean b => [if b then 0x87 else 0x83]
  | .index i => [0x80 + 4 * i]
  | .vecData payload =>
      if payload.length ≤ 31 then (0xC0 + payload.length) :: payload
      else (0xE0 + 4 * (payload.length / 256)) :: (payload.length % 256) :: payload
  | .pkVec n s keys => (4 * n + s) :: keys
  | .sigVec n s sigs => (0x40 + 4 * n + s) :: sigs

/-- The peek enumerant announcing each field. -/
def opPeekType : FieldOp → Int
  | .uleb _ => CTE_PEEK_TYPE_IXDATA_ULEB128
  | .sleb _ => CTE_PEEK_TYPE_IXDATA_SLEB128
  | .fixed tc _ => CTE_PEEK_TYPE_IXDATA_INT8 + tc
  | .boolean b => if b then CTE_PEEK_TYPE_IXDATA_CONST_TRUE else CTE_PEEK_TYPE_IXDATA_CONST_FALSE
  | .index _ => CTE_PEEK_TYPE_IXDATA_VECTOR_INDEX
  | .vecData payload =>
      if payload.length ≤ 31 then CTE_PEEK_TYPE_VECTOR_SHORT else CTE_PEEK_TYPE_VECTOR_EXTENDED
  | .pkVec _ s _ => CTE_PEEK_TYPE_PK_VECTOR_SIZE_0 + s
  | .sigVec _ s _ => CTE_PEEK_TYPE_SIG_VECTOR_SIZE_0 + s

def encodeOp (e : cte_encoder_t) : FieldOp → Option cte_encoder_t
  | .uleb v => cte_encoder_write_ixdata_uleb128 e v
  | .sleb v => cte_encoder_write_ixdata_sleb128 e v
  | .fixed tc bytes => write_fixed_data_internal e tc (fixedSize tc) bytes
  | .boolean b => cte_encoder_write_ixdata_boolean e b
  | .index i => cte_encoder_write_ixdata_vector_index e i
  | .vecData payload => cte_encoder_add_vector_data e payload
  | .pkVec n s keys => cte_encoder_add_public_key_vector e n s keys
  | .sigVec n s sigs => cte_encoder_add_signature_vector e n s sigs

def encodeOps (e : cte_encoder_t) : List FieldOp → Option cte_encoder_t
  | [] => some e
  | op :: rest =>
    match encodeOp e op with
    | none => none
    | some e1 => encodeOps e1 rest

/-- Peek, check the expected enumerant, perform the matching typed read and
check the value (scalar) or payload (vector) against the constructor call. -/
def decodeOp (d : cte_decoder_t) (op : FieldOp) : Option cte_decoder_t :=
  match cte_decoder_peek_type d with
  | none => none
  | some (t, d1) =>
    if t ≠ opPeekType op then none
    else
      match op with
      | .uleb v =>
        match _cte_decoder_read_ixdata_uleb128 d1 with
        | some (w, d2) => if w = v then some d2 else none
        | none => none
      | .sleb v =>
        match _cte_decoder_read_ixdata_sleb128 d1 with
        | some (w, d2) => if w = v then some d2 else none
        | none => none
      | .fixed tc bytes =>
        match _read_fixed_data d1 tc (fixedSize tc) with
        | some (bs, d2) => if bs = bytes then some d2 else none
        | none => none
      | .boolean b =>
        match _cte_decoder_read_ixdata_boolean d1 with
        | some (w, d2) => if w = b then some d2 else none
        | none => none
      | .index i =>
        match _cte_decoder_read_ixdata_vector_index d1 with
        | some (w, d2) => if w = i then some d2 else none
        | none => none
      | .vecData payload =>
        match _cte_decoder_read_vector_data_payload d1 with
        | some (bs, d2) => if bs = payload then some d2 else none
        | none => none
      | .pkVec _ _ keys =>
        match _cte_decoder_read_public_key_vector_data d1 with
        | some (bs, d2) => if bs = keys then some d2 else none
        | none => none
      | .sigVec _ _ sigs =>
        match _cte_decoder_read_signature_vector_data d1 with
        | some (bs, d2) => if bs = sigs then some d2 else none
        | none => none

def decodeOps (d : cte_decoder_t) : List FieldOp → Option cte_decoder_t
  | [] => some d
  | op :: rest =>
    match decodeOp d op with
    | none => none
    | some d1 => decodeOps d1 rest

def opsBytes : List FieldOp → List Nat
  | [] => []
  | op :: rest => fieldBytes op ++ opsBytes rest

/-! ### Encoder: a successful call appends exactly `fieldBytes` -/

set_option maxRecDepth 2000 in
theorem fixed_header_eq : ∀ tc < 16,
    CTE_TAG_IXDATA_FIELD ||| ((tc &&& 0x0F) <<< 2) ||| CTE_IXDATA_SUBTYPE_FIXED =
      0x82 + 4 * tc := by decide

set_option maxRecDepth 2000 in
theorem index_header_eq : ∀ i < 16,
    CTE_TAG_IXDATA_FIELD ||| ((i &&& 0x0F) <<< 2) ||| CTE_IXDATA_SUBTYPE_VECTOR_INDEX =
      0x80 + 4 * i := by decide

set_option maxRecDepth 4000 in
theorem short_vec_header_eq : ∀ l < 32,
    CTE_TAG_VECTOR_DATA ||| CTE_VECTOR_FORMAT_SHORT ||| (l &&& CTE_VECTOR_SHORT_MAX_LEN) =
      0xC0 + l := by decide

set_option maxRecDepth 2000 in
theorem ext_vec_header_eq : ∀ x < 8,
    CTE_TAG_VECTOR_DATA ||| CTE_VECTOR_FORMAT_EXTENDED ||| (x <<< 2) = 0xE0 + 4 * x := by
  decide

set_option maxRecDepth 4000 in
theorem pk_header_eq : ∀ n < 16, ∀ s < 4,
    CTE_TAG_PUBLIC_KEY_VECTOR ||| ((n &&& 0x0F) <<< 2) ||| (s &&& CTE_VECTOR_ENTRY_SIZE_MASK) =
      4 * n + s := by decide

set_option maxRecDepth 4000 in
theorem sig_header_eq : ∀ n < 16, ∀ s < 4,
    CTE_TAG_SIGNATURE_VECTOR ||| ((n &&& 0x0F) <<< 2) ||| (s &&& CTE_VECTOR_ENTRY_SIZE_MASK) =
      0x40 + 4 * n + s := by decide

theorem encodeOp_buffer (e e' : cte_encoder_t) (op : FieldOp) (hv : validOp op)
    (h : encodeOp e op = some e') :
    e'.buffer = e.buffer ++ fieldBytes op ∧ e'.capacity = e.capacity := by
  cases op with
  | uleb v =>
    simp only [encodeOp] at h
    unfold cte_encoder_write_ixdata_uleb128 at h
    split at h
    · exact absurd h (by simp)
    · cases hrec : _encode_uleb128 e (e.position + 1) v with
      | none => rw [hrec] at h; exact absurd h (by simp)
      | some bs =>
        rw [hrec] at h
        simp only [Option.some.injEq] at h
        have hbs := encodeUlebLoop_eq v _ _ _ _ _ hrec
        subst hbs
        rw [← h]
        exact ⟨by rfl, rfl⟩
  | sleb v =>
    simp only [encodeOp] at h
    unfold cte_encoder_write_ixdata_sleb128 at h
    split at h
    · exact absurd h (by simp)
    · cases hrec : _encode_sleb128 e (e.position + 1) v with
      | none => rw [hrec] at h; exact absurd h (by simp)
      | some bs =>
        rw [hrec] at h
        simp only [Option.some.injEq] at h
        have hbs := encodeSlebLoop_eq v.natAbs v rfl _ _ _ _ _ hrec
        subst hbs
        rw [← h]
        exact ⟨by rfl, rfl⟩
  | fixed tc bytes =>
    obtain ⟨htc, hlen, -⟩ := hv
    simp only [encodeOp] at h
    unfold write_fixed_data_internal at h
    split at h
    · exact absurd h (by simp)
    · split at h
      · exact absurd h (by simp)
      · simp only [Option.some.injEq] at h
        rw [← h]
        refine ⟨?_, rfl⟩
        show e.buffer ++ _ :: bytes.take (fixedSize tc) = e.buffer ++ (0x82 + 4 * tc) :: bytes
        rw [fixed_header_eq tc (by omega), ← hlen, List.take_length]
  | boolean b =>
    simp only [encodeOp] at h
    unfold cte_encoder_write_ixdata_boolean at h
    split at h
    · exact absurd h (by simp)
    · cases b <;>
        (simp at h
         rw [← h.2]
         exact ⟨rfl, rfl⟩)
  | index i =>
    simp only [encodeOp] at h
    unfold cte_encoder_write_ixdata_vector_index at h
    split at h
    · exact absurd h (by simp)
    · split at h
      · exact absurd h (by simp)
      · simp only [Option.some.injEq] at h
        rw [← h]
        refine ⟨?_, rfl⟩
        have hi : i ≤ 15 := hv
        show e.buffer ++ [_] = e.buffer ++ [0x80 + 4 * i]
        rw [index_header_eq i (by omega)]
  | vecData payload =>
    obtain ⟨hlen, -⟩ := hv
    simp only [encodeOp] at h
    unfold cte_encoder_add_vector_data at h
    by_cases hshort : payload.length ≤ CTE_VECTOR_SHORT_MAX_LEN
    · rw [if_pos hshort] at h
      split at h
      · exact absurd h (by simp)
      · simp only [Option.some.injEq] at h
        rw [← h]
        refine ⟨?_, rfl⟩
        show e.buffer ++ _ :: payload = e.buffer ++ fieldBytes (.vecData payload)
        simp only [fieldBytes]
        rw [if_pos (show payload.length ≤ 31 from hshort)]
        rw [short_vec_header_eq payload.length (by
          have : CTE_VECTOR_SHORT_MAX_LEN = 31 := rfl
          omega)]
    · rw [if_neg hshort] at h
      have hext : CTE_VECTOR_EXTENDED_MIN_LEN ≤ payload.length ∧
          payload.length ≤ CTE_VECTOR_EXTENDED_MAX_LEN := by
        unfold CTE_VECTOR_EXTENDED_MIN_LEN CTE_VECTOR_EXTENDED_MAX_LEN
        unfold CTE_VECTOR_SHORT_MAX_LEN at hshort
        omega
      rw [if_pos hext] at h
      split at h
      · exact absurd h (by simp)
      · simp only [Option.some.injEq] at h
        rw [← h]
        refine ⟨?_, rfl⟩
        show e.buffer ++ _ :: _ :: payload = e.buffer ++ fieldBytes (.vecData payload)
        simp only [fieldBytes]
        rw [if_neg (show ¬ payload.length ≤ 31 from hshort)]
        have h1 : (payload.length >>> 8) &&& 0x07 = payload.length / 256 := by
          rw [shiftRight_eq_div, and_7_eq]
          norm_num
          have : payload.length / 256 < 8 := by
            unfold CTE_VECTOR_EXTENDED_MAX_LEN at hext
            omega
          omega
        rw [h1, ext_vec_header_eq (payload.length / 256) (by
          unfold CTE_VECTOR_EXTENDED_MAX_LEN at hext
          omega)]
        rw [and_255_eq]
  | pkVec n s keys =>
    obtain ⟨hn1, hn15, hs, hklen, -⟩ := hv
    simp only [encodeOp] at h
    unfold cte_encoder_add_public_key_vector at h
    split at h
    · exact absurd h (by simp)
    · rename_i hcnt
      interval_cases s <;>
        (simp only [get_public_key_size] at h
         split at h
         · exact absurd h (by simp)
         · simp only [Option.some.injEq] at h
           rw [← h]
           refine ⟨?_, rfl⟩
           show e.buffer ++ _ :: keys.take _ = e.buffer ++ fieldBytes (.pkVec n _ keys)
           unfold fieldBytes
           rw [pk_header_eq n (by omega) _ (by omega)]
           rw [List.take_of_length_le (by
             simp only [get_public_key_size, CTE_PUBKEY_SIZE_ED25519, CTE_PUBKEY_SIZE_SLH_128F,
               CTE_PUBKEY_SIZE_SLH_192F, CTE_PUBKEY_SIZE_SLH_256F, Option.getD_some] at hklen ⊢
             omega)])
  | sigVec n s sigs =>
    obtain ⟨hn1, hn15, hs, hslen, -⟩ := hv
    simp only [encodeOp] at h
    unfold cte_encoder_add_signature_vector at h
    split at h
    · exact absurd h (by simp)
    · rename_i hcnt
      interval_cases s <;>
        (simp only [get_signature_item_size] at h
         split at h
         · exact absurd h (by simp)
         · simp only [Option.some.injEq] at h
           rw [← h]
           refine ⟨?_, rfl⟩
           show e.buffer ++ _ :: sigs.take _ = e.buffer ++ fieldBytes (.sigVec n _ sigs)
           unfold fieldBytes
           rw [sig_header_eq n (by omega) _ (by omega)]
           rw [List.take_of_length_le (by
             simp only [get_signature_item_size, CTE_SIGNATURE_SIZE_ED25519,
               CTE_SIGNATURE_HASH_SIZE_PQC, Option.getD_some] at hslen ⊢
             omega)])

theorem encodeOps_buffer : ∀ (ops : List FieldOp) (e e' : cte_encoder_t),
    (∀ op ∈ ops, validOp op) → encodeOps e ops = some e' →
    e'.buffer = e.buffer ++ opsBytes ops := by
  intro ops
  induction ops with
  | nil =>
    intro e e' _ h
    simp only [encodeOps, Option.some.injEq] at h
    simp [opsBytes, ← h]
  | cons op rest ihr =>
    intro e e' hv h
    simp only [encodeOps] at h
    cases hstep : encodeOp e op with
    | none => rw [hstep] at h; exact absurd h (by simp)
    | some e1 =>
      rw [hstep] at h
      have h1 := encodeOp_buffer e e1 op (hv op (by simp)) hstep
      have h2 := ihr e1 e' (fun o ho => hv o (by simp [ho])) h
      rw [h2, h1.1, opsBytes]
      simp [List.append_assoc]

/-! ### Decoder: peek and typed reads over a laid-out buffer -/

theorem peek_nonzero (d : cte_decoder_t) (h1 : 1 ≤ d.position) (h2 : d.position + 1 ≤ d.size) :
    cte_decoder_peek_type d = some (peekClassify (byteAt d d.position), d) := by
  unfold cte_decoder_peek_type
  rw [if_neg (by omega : ¬ d.position = 0)]
  show (let header_byte := _cte_decoder_peek_header_byte d
        if header_byte = -1 then some (CTE_PEEK_EOF, d)
        else some (peekClassify header_byte.toNat, d)) = _
  unfold _cte_decoder_peek_header_byte
  rw [if_pos h2]
  rw [if_neg (show ¬ ((byteAt d d.position : Int) = -1) by omega)]
  simp

theorem peek_eof (d : cte_decoder_t) (h1 : 1 ≤ d.position) (h2 : d.position = d.size) :
    cte_decoder_peek_type d = some (CTE_PEEK_EOF, d) := by
  unfold cte_decoder_peek_type
  rw [if_neg (by omega : ¬ d.position = 0)]
  show (let header_byte := _cte_decoder_peek_header_byte d
        if header_byte = -1 then some (CTE_PEEK_EOF, d)
        else some (peekClassify header_byte.toNat, d)) = _
  unfold _cte_decoder_peek_header_byte
  rw [if_neg (show ¬ (d.position + 1 ≤ d.size) by omega)]
  simp

theorem decodeOp_uleb (v : Nat) (pre post : List Nat) (d : cte_decoder_t)
    (hv : v < 2 ^ 64)
    (hdata : d.data = pre ++ fieldBytes (.uleb v) ++ post)
    (hpos : d.position = pre.length) (hpre : 1 ≤ pre.length)
    (hsize : d.size = d.data.length) :
    decodeOp d (.uleb v) =
      some { d with position := pre.length + (fieldBytes (.uleb v)).length } := by
  simp only [fieldBytes] at hdata ⊢
  have hsz : d.size = pre.length + (1 + (uleb128Bytes v).length) + post.length := by
    rw [hsize, hdata]
    simp only [List.length_append, List.length_cons]
    omega
  have hul1 : 1 ≤ (uleb128Bytes v).length := by
    cases hq : uleb128Bytes v with
    | nil => exact absurd hq (uleb128Bytes_ne_nil v)
    | cons a as => simp
  have hbyte : byteAt d d.position = 0x85 := by
    have h1 := getD_append_mid pre (0x85 :: uleb128Bytes v) post 0 (by simp)
    simpa [byteAt, hdata, hpos] using h1
  have hread : _cte_decoder_read_ixdata_uleb128 d =
      some (v, { d with position := pre.length + (1 + (uleb128Bytes v).length) }) := by
    unfold _cte_decoder_read_ixdata_uleb128 _consume_ixdata_header
    rw [if_neg (show ¬ (d.position + 1 > d.size) by omega)]
    rw [hbyte]
    rw [if_neg (by decide : ¬ ((0x85 : Nat) &&& CTE_TAG_MASK ≠ CTE_TAG_IXDATA_FIELD))]
    rw [if_neg (by decide :
      ¬ ((0x85 : Nat) &&& CTE_IXDATA_SUBTYPE_MASK ≠ CTE_IXDATA_SUBTYPE_VARINT))]
    show (let EEEE := ((0x85 : Nat) >>> 2) &&& 0x0F
          if EEEE ≠ CTE_IXDATA_VARINT_ENC_ULEB128 then none
          else if EEEE ≥ 0x03 then none
          else _decode_uleb128 { d with position := d.position + 1 }) = _
    rw [if_neg (by decide), if_neg (by decide)]
    have hspec := _decode_uleb128_spec (uleb128Bytes v) (pre ++ [0x85]) post
      { d with position := d.position + 1 }
      (uleb128Bytes_spec v).1
      (uleb128Bytes_length_le 10 v (by norm_num) (by
        have h10 : (2 : Nat) ^ 64 ≤ 2 ^ (7 * 10) := by norm_num
        omega))
      (by rw [(uleb128Bytes_spec v).2]; exact hv)
      (by rw [hdata]; simp)
      (by simp [hpos])
      (by simpa using hsize)
    rw [hspec, (uleb128Bytes_spec v).2]
    simp only [Option.some.injEq, Prod.mk.injEq, true_and]
    congr 1
    simp only [List.length_append, List.length_cons, List.length_nil]
    omega
  unfold decodeOp
  rw [peek_nonzero d (by omega) (by omega), hbyte]
  show (if peekClassify 0x85 ≠ opPeekType (.uleb v) then none
        else match _cte_decoder_read_ixdata_uleb128 d with
          | some (w, d2) => if w = v then some d2 else none
          | none => none) = _
  rw [if_neg (by simp only [opPeekType]; decide), hread]
  simp <;> omega

theorem sleb128Bytes_ne_nil (v : Int) : sleb128Bytes v ≠ [] := by
  by_cases hstop : (v / 128 = 0 ∧ (v % 128).toNat &&& 0x40 = 0) ∨
      (v / 128 = -1 ∧ (v % 128).toNat &&& 0x40 ≠ 0)
  · rw [sleb128Bytes_eq_terminal v hstop]
    simp
  · rw [sleb128Bytes_eq_cont v hstop]
    simp

theorem decodeOp_sleb (v : Int) (pre post : List Nat) (d : cte_decoder_t)
    (hlo : -(2 ^ 63) ≤ v) (hhi : v < 2 ^ 63)
    (hdata : d.data = pre ++ fieldBytes (.sleb v) ++ post)
    (hpos : d.position = pre.length) (hpre : 1 ≤ pre.length)
    (hsize : d.size = d.data.length) :
    decodeOp d (.sleb v) =
      some { d with position := pre.length + (fieldBytes (.sleb v)).length } := by
  simp only [fieldBytes] at hdata ⊢
  have hsz : d.size = pre.length + (1 + (sleb128Bytes v).length) + post.length := by
    rw [hsize, hdata]
    simp only [List.length_append, List.length_cons]
    omega
  have hbyte : byteAt d d.position = 0x89 := by
    have h1 := getD_append_mid pre (0x89 :: sleb128Bytes v) post 0 (by simp)
    simpa [byteAt, hdata, hpos] using h1
  have hread : _cte_decoder_read_ixdata_sleb128 d =
      some (v, { d with position := pre.length + (1 + (sleb128Bytes v).length) }) := by
    unfold _cte_decoder_read_ixdata_sleb128 _consume_ixdata_header
    rw [if_neg (show ¬ (d.position + 1 > d.size) by omega)]
    rw [hbyte]
    rw [if_neg (by decide : ¬ ((0x89 : Nat) &&& CTE_TAG_MASK ≠ CTE_TAG_IXDATA_FIELD))]
    rw [if_neg (by decide :
      ¬ ((0x89 : Nat) &&& CTE_IXDATA_SUBTYPE_MASK ≠ CTE_IXDATA_SUBTYPE_VARINT))]
    show (let EEEE := ((0x89 : Nat) >>> 2) &&& 0x0F
          if EEEE ≠ CTE_IXDATA_VARINT_ENC_SLEB128 then none
          else if EEEE ≥ 0x03 then none
          else _decode_sleb128 { d with position := d.position + 1 }) = _
    rw [if_neg (by decide), if_neg (by decide)]
    have hspec := _decode_sleb128_spec v (pre ++ [0x89]) post
      { d with position := d.position + 1 }
      hlo hhi
      (by rw [hdata]; simp)
      (by simp [hpos])
      (by simpa using hsize)
    rw [hspec]
    simp only [Option.some.injEq, Prod.mk.injEq, true_and]
    congr 1
    simp only [List.length_append, List.length_cons, List.length_nil]
    omega
  unfold decodeOp
  rw [peek_nonzero d (by omega) (by omega), hbyte]
  show (if peekClassify 0x89 ≠ opPeekType (.sleb v) then none
        else match _cte_decoder_read_ixdata_sleb128 d with
          | some (w, d2) => if w = v then some d2 else none
          | none => none) = _
  rw [if_neg (by simp only [opPeekType]; decide), hread]
  simp <;> omega

theorem decodeOp_boolean (b : Bool) (pre post : List Nat) (d : cte_decoder_t)
    (hdata : d.data = pre ++ fieldBytes (.boolean b) ++ post)
    (hpos : d.position = pre.length) (hpre : 1 ≤ pre.length)
    (hsize : d.size = d.data.length) :
    decodeOp d (.boolean b) =
      some { d with position := pre.length + (fieldBytes (.boolean b)).length } := by
  have hsz : d.size = pre.length + 1 + post.length := by
    rw [hsize, hdata]
    cases b <;>
      simp only [fieldBytes, if_true, if_false, Bool.false_eq_true, reduceIte,
        List.length_append, List.length_cons, List.length_nil] <;> omega
  cases b
  · simp only [fieldBytes, Bool.false_eq_true, reduceIte] at hdata ⊢
    have hbyte : byteAt d d.position = 0x83 := by
      have h1 := getD_append_mid pre [0x83] post 0 (by simp)
      simpa [byteAt, hdata, hpos] using h1
    have hread : _cte_decoder_read_ixdata_boolean d =
        some (false, { d with position := d.position + 1 }) := by
      unfold _cte_decoder_read_ixdata_boolean _consume_ixdata_header
      rw [if_neg (show ¬ (d.position + 1 > d.size) by omega)]
      rw [hbyte]
      rw [if_neg (by decide : ¬ ((0x83 : Nat) &&& CTE_TAG_MASK ≠ CTE_TAG_IXDATA_FIELD)),
          if_neg (by decide :
            ¬ ((0x83 : Nat) &&& CTE_IXDATA_SUBTYPE_MASK ≠ CTE_IXDATA_SUBTYPE_CONSTANT))]
      show (let XXXX := ((0x83 : Nat) >>> 2) &&& 0x0F
            if XXXX = CTE_IXDATA_CONST_VAL_FALSE then
              some (false, { d with position := d.position + 1 })
            else if XXXX = CTE_IXDATA_CONST_VAL_TRUE then
              some (true, { d with position := d.position + 1 })
            else none) = _
      rw [if_pos (by decide)]
    unfold decodeOp
    rw [peek_nonzero d (by omega) (by omega), hbyte]
    show (if peekClassify 0x83 ≠ opPeekType (.boolean false) then none
          else match _cte_decoder_read_ixdata_boolean d with
            | some (w, d2) => if w = false then some d2 else none
            | none => none) = _
    rw [if_neg (by simp only [opPeekType]; decide), hread]
    simp [hpos]
  · simp only [fieldBytes, reduceIte] at hdata ⊢
    have hbyte : byteAt d d.position = 0x87 := by
      have h1 := getD_append_mid pre [0x87] post 0 (by simp)
      simpa [byteAt, hdata, hpos] using h1
    have hread : _cte_decoder_read_ixdata_boolean d =
        some (true, { d with position := d.position + 1 }) := by
      unfold _cte_decoder_read_ixdata_boolean _consume_ixdata_header
      rw [if_neg (show ¬ (d.position + 1 > d.size) by omega)]
      rw [hbyte]
      rw [if_neg (by decide : ¬ ((0x87 : Nat) &&& CTE_TAG_MASK ≠ CTE_TAG_IXDATA_FIELD)),
          if_neg (by decide :
            ¬ ((0x87 : Nat) &&& CTE_IXDATA_SUBTYPE_MASK ≠ CTE_IXDATA_SUBTYPE_CONSTANT))]
      show (let XXXX := ((0x87 : Nat) >>> 2) &&& 0x0F
            if XXXX = CTE_IXDATA_CONST_VAL_FALSE then
              some (false, { d with position := d.position + 1 })
            else if XXXX = CTE_IXDATA_CONST_VAL_TRUE then
              some (true, { d with position := d.position + 1 })
            else none) = _
      rw [if_neg (by decide), if_pos (by decide)]
    unfold decodeOp
    rw [peek_nonzero d (by omega) (by omega), hbyte]
    show (if peekClassify 0x87 ≠ opPeekType (.boolean true) then none
          else match _cte_decoder_read_ixdata_boolean d with
            | some (w, d2) => if w = true then some d2 else none
            | none => none) = _
    rw [if_neg (by simp only [opPeekType]; decide), hread]
    simp [hpos]

theorem decode_index_table : ∀ i < 16,
    (0x80 + 4 * i) &&& CTE_TAG_MASK = CTE_TAG_IXDATA_FIELD ∧
    (0x80 + 4 * i) &&& CTE_IXDATA_SUBTYPE_MASK = CTE_IXDATA_SUBTYPE_VECTOR_INDEX ∧
    ((0x80 + 4 * i) >>> 2) &&& 0x0F = i ∧
    peekClassify (0x80 + 4 * i) = CTE_PEEK_TYPE_IXDATA_VECTOR_INDEX := by decide

theorem decodeOp_index (i : Nat) (pre post : List Nat) (d : cte_decoder_t)
    (hv : i ≤ 15)
    (hdata : d.data = pre ++ fieldBytes (.index i) ++ post)
    (hpos : d.position = pre.length) (hpre : 1 ≤ pre.length)
    (hsize : d.size = d.data.length) :
    decodeOp d (.index i) =
      some { d with position := pre.length + (fieldBytes (.index i)).length } := by
  obtain ⟨htag, hss, hdet, hcl⟩ := decode_index_table i (by omega)
  simp only [fieldBytes] at hdata ⊢
  have hsz : d.size = pre.length + 1 + post.length := by
    rw [hsize, hdata]
    simp only [List.length_append, List.length_cons, List.length_nil]
    try omega
  have hbyte : byteAt d d.position = 0x80 + 4 * i := by
    have h1 := getD_append_mid pre [0x80 + 4 * i] post 0 (by simp)
    simpa [byteAt, hdata, hpos] using h1
  have hread : _cte_decoder_read_ixdata_vector_index d =
      some (i, { d with position := d.position + 1 }) := by
    unfold _cte_decoder_read_ixdata_vector_index _consume_ixdata_header
    rw [if_neg (show ¬ (d.position + 1 > d.size) by omega)]
    rw [hbyte]
    rw [if_neg (by rw [htag]; simp), if_neg (by rw [hss]; simp)]
    show some (((0x80 + 4 * i) >>> 2) &&& 0x0F, { d with position := d.position + 1 }) = _
    rw [hdet]
  unfold decodeOp
  rw [peek_nonzero d (by omega) (by omega), hbyte, hcl]
  show (if CTE_PEEK_TYPE_IXDATA_VECTOR_INDEX ≠ opPeekType (.index i) then none
        else match _cte_decoder_read_ixdata_vector_index d with
          | some (w, d2) => if w = i then some d2 else none
          | none => none) = _
  rw [if_neg (by simp [opPeekType]), hread]
  simp [hpos]

set_option maxRecDepth 4000 in
theorem decode_fixed_table : ∀ tc < 10,
    (0x82 + 4 * tc) &&& CTE_TAG_MASK = CTE_TAG_IXDATA_FIELD ∧
    (0x82 + 4 * tc) &&& CTE_IXDATA_SUBTYPE_MASK = CTE_IXDATA_SUBTYPE_FIXED ∧
    ((0x82 + 4 * tc) >>> 2) &&& 0x0F = tc ∧
    peekClassify (0x82 + 4 * tc) = CTE_PEEK_TYPE_IXDATA_INT8 + (tc : Int) := by decide

theorem decodeOp_fixed (tc : Nat) (bytes : List Nat) (pre post : List Nat) (d : cte_decoder_t)
    (htc : tc ≤ 9) (hblen : bytes.length = fixedSize tc)
    (hdata : d.data = pre ++ fieldBytes (.fixed tc bytes) ++ post)
    (hpos : d.position = pre.length) (hpre : 1 ≤ pre.length)
    (hsize : d.size = d.data.length) :
    decodeOp d (.fixed tc bytes) =
      some { d with position := pre.length + (fieldBytes (.fixed tc bytes)).length } := by
  obtain ⟨htag, hss, hdet, hcl⟩ := decode_fixed_table tc (by omega)
  simp only [fieldBytes] at hdata ⊢
  have hsz : d.size = pre.length + (1 + bytes.length) + post.length := by
    rw [hsize, hdata]
    simp only [List.length_append, List.length_cons, List.length_nil]
    omega
  have hbyte : byteAt d d.position = 0x82 + 4 * tc := by
    have h1 := getD_append_mid pre ((0x82 + 4 * tc) :: bytes) post 0 (by simp)
    simpa [byteAt, hdata, hpos] using h1
  have hread : _read_fixed_data d tc (fixedSize tc) =
      some (bytes, { d with position := pre.length + (1 + bytes.length) }) := by
    unfold _read_fixed_data _consume_ixdata_header
    rw [if_neg (show ¬ (d.position + 1 > d.size) by omega)]
    rw [hbyte]
    rw [if_neg (by rw [htag]; simp), if_neg (by rw [hss]; simp)]
    show (let TTTT := ((0x82 + 4 * tc : Nat) >>> 2) &&& 0x0F
          if TTTT ≠ tc then none
          else if TTTT ≥ 0x0A then none
          else if d.position + 1 + fixedSize tc > d.size then none
          else some (listSlice d.data (d.position + 1) (fixedSize tc),
            { d with position := d.position + 1 + fixedSize tc })) = _
    rw [hdet]
    rw [if_neg (by simp), if_neg (by omega), if_neg (by omega)]
    have hslice : listSlice d.data (d.position + 1) (fixedSize tc) = bytes := by
      rw [hdata, hpos, ← hblen]
      have hmid := slice_append_mid (pre ++ [0x82 + 4 * tc]) bytes post
      simpa using hmid
    rw [hslice]
    simp only [Option.some.injEq, Prod.mk.injEq, true_and]
    congr 1
    omega
  unfold decodeOp
  rw [peek_nonzero d (by omega) (by omega), hbyte, hcl]
  show (if CTE_PEEK_TYPE_IXDATA_INT8 + (tc : Int) ≠ opPeekType (.fixed tc bytes) then none
        else match _read_fixed_data d tc (fixedSize tc) with
          | some (bs, d2) => if bs = bytes then some d2 else none
          | none => none) = _
  rw [if_neg (by simp [opPeekType]), hread]
  simp
  omega

set_option maxRecDepth 8000 in
theorem decode_vshort_table : ∀ l < 32,
    (0xC0 + l) &&& CTE_TAG_MASK = CTE_TAG_VECTOR_DATA ∧
    (0xC0 + l) &&& CTE_VECTOR_FORMAT_FLAG_MASK = CTE_VECTOR_FORMAT_SHORT ∧
    (0xC0 + l) &&& CTE_VECTOR_SHORT_MAX_LEN = l ∧
    peekClassify (0xC0 + l) = CTE_PEEK_TYPE_VECTOR_SHORT := by decide

set_option maxRecDepth 4000 in
theorem decode_vext_table : ∀ x < 8,
    (0xE0 + 4 * x) &&& CTE_TAG_MASK = CTE_TAG_VECTOR_DATA ∧
    ¬ ((0xE0 + 4 * x) &&& CTE_VECTOR_FORMAT_FLAG_MASK = CTE_VECTOR_FORMAT_SHORT) ∧
    ((0xE0 + 4 * x) >>> 2) &&& 0x07 = x ∧
    peekClassify (0xE0 + 4 * x) = CTE_PEEK_TYPE_VECTOR_EXTENDED := by decide

theorem decodeOp_vecData (payload : List Nat) (pre post : List Nat) (d : cte_decoder_t)
    (hv : payload.length ≤ 1197)
    (hdata : d.data = pre ++ fieldBytes (.vecData payload) ++ post)
    (hpos : d.position = pre.length) (hpre : 1 ≤ pre.length)
    (hsize : d.size = d.data.length) :
    decodeOp d (.vecData payload) =
      some { d with
        position := pre.length + (fieldBytes (.vecData payload)).length
        last_vector_data_len := payload.length } := by
  by_cases hshort : payload.length ≤ 31
  · obtain ⟨htag, hfmt, hlow, hcl⟩ := decode_vshort_table payload.length (by omega)
    simp only [fieldBytes, if_pos hshort] at hdata ⊢
    have hsz : d.size = pre.length + (1 + payload.length) + post.length := by
      rw [hsize, hdata]
      simp only [List.length_append, List.length_cons, List.length_nil]
      omega
    have hbyte : byteAt d d.position = 0xC0 + payload.length := by
      have h1 := getD_append_mid pre ((0xC0 + payload.length) :: payload) post 0 (by simp)
      simpa [byteAt, hdata, hpos] using h1
    have hparse : _parse_vector_data_header d = some (payload.length, 1) := by
      unfold _parse_vector_data_header
      rw [if_neg (show ¬ (d.position + 1 > d.size) by omega)]
      rw [hbyte]
      rw [if_neg (by rw [htag]; simp), if_pos hfmt, hlow]
    have hread : _cte_decoder_read_vector_data_payload d =
        some (payload, { d with
          position := pre.length + (1 + payload.length)
          last_vector_data_len := payload.length }) := by
      unfold _cte_decoder_read_vector_data_payload
      rw [hparse]
      show (if payload.length = SIZE_MAX ∨ (1 : Nat) = 0 then none
            else if d.position + (1 + payload.length) > d.size then none
            else some (listSlice d.data (d.position + 1) payload.length,
              { d with
                position := d.position + 1 + payload.length
                last_vector_data_len := payload.length })) = _
      rw [if_neg (by simp only [SIZE_MAX]; omega), if_neg (by omega)]
      have hslice : listSlice d.data (d.position + 1) payload.length = payload := by
        rw [hdata, hpos]
        have hmid := slice_append_mid (pre ++ [0xC0 + payload.length]) payload post
        simpa using hmid
      rw [hslice]
      simp only [Option.some.injEq, Prod.mk.injEq, true_and]
      congr 1
      omega
    unfold decodeOp
    rw [peek_nonzero d (by omega) (by omega), hbyte, hcl]
    show (if CTE_PEEK_TYPE_VECTOR_SHORT ≠ opPeekType (.vecData payload) then none
          else match _cte_decoder_read_vector_data_payload d with
            | some (bs, d2) => if bs = payload then some d2 else none
            | none => none) = _
    rw [if_neg (by simp [opPeekType, hshort]), hread]
    simp
    omega
  · obtain ⟨htag, hfmt, hdet, hcl⟩ := decode_vext_table (payload.length / 256) (by omega)
    simp only [fieldBytes, if_neg hshort] at hdata ⊢
    have hsz : d.size = pre.length + (2 + payload.length) + post.length := by
      rw [hsize, hdata]
      simp only [List.length_append, List.length_cons, List.length_nil]
      omega
    have hbyte : byteAt d d.position = 0xE0 + 4 * (payload.length / 256) := by
      have h1 := getD_append_mid pre
        ((0xE0 + 4 * (payload.length / 256)) :: (payload.length % 256) :: payload) post 0 (by simp)
      simpa [byteAt, hdata, hpos] using h1
    have hbyte2 : byteAt d (d.position + 1) = payload.length % 256 := by
      have h1 := getD_append_mid pre
        ((0xE0 + 4 * (payload.length / 256)) :: (payload.length % 256) :: payload) post 1 (by simp)
      simpa [byteAt, hdata, hpos] using h1
    have hlen : ((payload.length / 256) <<< 8) ||| (payload.length % 256) = payload.length := by
      rw [Nat.lor_comm]
      rw [lor_shiftLeft_eq_add 8 (payload.length / 256)
        (show payload.length % 256 < 2 ^ 8 by omega)]
      norm_num
      omega
    have hparse : _parse_vector_data_header d = some (payload.length, 2) := by
      unfold _parse_vector_data_header
      rw [if_neg (show ¬ (d.position + 1 > d.size) by omega)]
      rw [hbyte]
      rw [if_neg (by rw [htag]; simp), if_neg hfmt]
      rw [if_neg (show ¬ (d.position + 2 > d.size) by omega)]
      rw [hbyte2, hdet]
      show (if ((payload.length / 256) <<< 8 ||| payload.length % 256) <
              CTE_VECTOR_EXTENDED_MIN_LEN ∨
              ((payload.length / 256) <<< 8 ||| payload.length % 256) >
              CTE_VECTOR_EXTENDED_MAX_LEN then none
            else some ((payload.length / 256) <<< 8 ||| payload.length % 256, 2)) = _
      rw [hlen]
      rw [if_neg (by
        simp only [CTE_VECTOR_EXTENDED_MIN_LEN, CTE_VECTOR_EXTENDED_MAX_LEN]
        omega)]
    have hread : _cte_decoder_read_vector_data_payload d =
        some (payload, { d with
          position := pre.length + (2 + payload.length)
          last_vector_data_len := payload.length }) := by
      unfold _cte_decoder_read_vector_data_payload
      rw [hparse]
      show (if payload.length = SIZE_MAX ∨ (2 : Nat) = 0 then none
            else if d.position + (2 + payload.length) > d.size then none
            else some (listSlice d.data (d.position + 2) payload.length,
              { d with
                position := d.position + 2 + payload.length
                last_vector_data_len := payload.length })) = _
      rw [if_neg (by simp only [SIZE_MAX]; omega), if_neg (by omega)]
      have hslice : listSlice d.data (d.position + 2) payload.length = payload := by
        rw [hdata, hpos]
        have hmid := slice_append_mid
          (pre ++ [0xE0 + 4 * (payload.length / 256), payload.length % 256]) payload post
        simpa using hmid
      rw [hslice]
      simp only [Option.some.injEq, Prod.mk.injEq, true_and]
      congr 1
      omega
    unfold decodeOp
    rw [peek_nonzero d (by omega) (by omega), hbyte, hcl]
    show (if CTE_PEEK_TYPE_VECTOR_EXTENDED ≠ opPeekType (.vecData payload) then none
          else match _cte_decoder_read_vector_data_payload d with
            | some (bs, d2) => if bs = payload then some d2 else none
            | none => none) = _
    rw [if_neg (by simp [opPeekType, hshort]), hread]
    simp
    omega

set_option maxRecDepth 4000 in
theorem decode_pk_table : ∀ n < 16, ∀ s < 4,
    (4 * n + s) &&& CTE_TAG_MASK = CTE_TAG_PUBLIC_KEY_VECTOR ∧
    ((4 * n + s) >>> 2) &&& 0x0F = n ∧
    (4 * n + s) &&& CTE_VECTOR_ENTRY_SIZE_MASK = s ∧
    peekClassify (4 * n + s) = CTE_PEEK_TYPE_PK_VECTOR_SIZE_0 + (s : Int) := by decide

set_option maxRecDepth 4000 in
theorem decode_sig_table : ∀ n < 16, ∀ s < 4,
    (0x40 + 4 * n + s) &&& CTE_TAG_MASK = CTE_TAG_SIGNATURE_VECTOR ∧
    ((0x40 + 4 * n + s) >>> 2) &&& 0x0F = n ∧
    (0x40 + 4 * n + s) &&& CTE_VECTOR_ENTRY_SIZE_MASK = s ∧
    peekClassify (0x40 + 4 * n + s) = CTE_PEEK_TYPE_SIG_VECTOR_SIZE_0 + (s : Int) := by decide

theorem decodeOp_pkVec (n s : Nat) (keys : List Nat) (pre post : List Nat) (d : cte_decoder_t)
    (hn1 : 1 ≤ n) (hn15 : n ≤ 15) (hs : s ≤ 3)
    (hklen : keys.length = n * (get_public_key_size s).getD 0)
    (hdata : d.data = pre ++ fieldBytes (.pkVec n s keys) ++ post)
    (hpos : d.position = pre.length) (hpre : 1 ≤ pre.length)
    (hsize : d.size = d.data.length) :
    decodeOp d (.pkVec n s keys) =
      some { d with
        position := pre.length + (fieldBytes (.pkVec n s keys)).length
        last_vector_count := n } := by
  obtain ⟨htag, hN, hTT, hcl⟩ := decode_pk_table n (by omega) s (by omega)
  simp only [fieldBytes] at hdata ⊢
  have hsz : d.size = pre.length + (1 + keys.length) + post.length := by
    rw [hsize, hdata]
    simp only [List.length_append, List.length_cons, List.length_nil]
    omega
  have hbyte : byteAt d d.position = 4 * n + s := by
    have h1 := getD_append_mid pre ((4 * n + s) :: keys) post 0 (by simp)
    simpa [byteAt, hdata, hpos] using h1
  have hread : _cte_decoder_read_public_key_vector_data d =
      some (keys, { d with
        position := pre.length + (1 + keys.length)
        last_vector_count := n }) := by
    unfold _cte_decoder_read_public_key_vector_data
    rw [if_neg (show ¬ (d.position + 1 > d.size) by omega)]
    rw [hbyte]
    rw [if_neg (by rw [htag]; simp)]
    show (let N := ((4 * n + s) >>> 2) &&& 0x0F
          let TT := (4 * n + s) &&& CTE_VECTOR_ENTRY_SIZE_MASK
          if N = 0 ∨ N > CTE_VECTOR_MAX_LEN then none
          else
            match get_public_key_size TT with
            | none => none
            | some item_size =>
              if d.position + (1 + N * item_size) > d.size then none
              else some (listSlice d.data (d.position + 1) (N * item_size),
                { d with
                  position := d.position + 1 + N * item_size
                  last_vector_count := N })) = _
    rw [hN, hTT]
    rw [if_neg (by
      simp only [CTE_VECTOR_MAX_LEN]
      omega)]
    have hslice : ∀ m : Nat, m = keys.length → listSlice d.data (d.position + 1) m = keys := by
      intro m hm
      rw [hdata, hpos, hm]
      have hmid := slice_append_mid (pre ++ [4 * n + s]) keys post
      simpa using hmid
    interval_cases s <;>
      (simp only [get_public_key_size, Option.getD_some] at hklen ⊢
       rw [if_neg (by
         simp only [CTE_PUBKEY_SIZE_ED25519, CTE_PUBKEY_SIZE_SLH_128F, CTE_PUBKEY_SIZE_SLH_192F,
           CTE_PUBKEY_SIZE_SLH_256F] at hklen ⊢
         omega)]
       rw [hslice _ (by
         simp only [CTE_PUBKEY_SIZE_ED25519, CTE_PUBKEY_SIZE_SLH_128F, CTE_PUBKEY_SIZE_SLH_192F,
           CTE_PUBKEY_SIZE_SLH_256F] at hklen ⊢
         omega)]
       simp only [Option.some.injEq, Prod.mk.injEq, true_and]
       congr 1
       simp only [CTE_PUBKEY_SIZE_ED25519, CTE_PUBKEY_SIZE_SLH_128F, CTE_PUBKEY_SIZE_SLH_192F,
         CTE_PUBKEY_SIZE_SLH_256F] at hklen ⊢
       omega)
  unfold decodeOp
  rw [peek_nonzero d (by omega) (by omega), hbyte, hcl]
  show (if CTE_PEEK_TYPE_PK_VECTOR_SIZE_0 + (s : Int) ≠ opPeekType (.pkVec n s keys) then none
        else match _cte_decoder_read_public_key_vector_data d with
          | some (bs, d2) => if bs = keys then some d2 else none
          | none => none) = _
  rw [if_neg (by simp [opPeekType]), hread]
  simp
  omega

theorem decodeOp_sigVec (n s : Nat) (sigs : List Nat) (pre post : List Nat) (d : cte_decoder_t)
    (hn1 : 1 ≤ n) (hn15 : n ≤ 15) (hs : s ≤ 3)
    (hslen : sigs.length = n * (get_signature_item_size s).getD 0)
    (hdata : d.data = pre ++ fieldBytes (.sigVec n s sigs) ++ post)
    (hpos : d.position = pre.length) (hpre : 1 ≤ pre.length)
    (hsize : d.size = d.data.length) :
    decodeOp d (.sigVec n s sigs) =
      some { d with
        position := pre.length + (fieldBytes (.sigVec n s sigs)).length
        last_vector_count := n } := by
  obtain ⟨htag, hN, hTT, hcl⟩ := decode_sig_table n (by omega) s (by omega)
  simp only [fieldBytes] at hdata ⊢
  have hsz : d.size = pre.length + (1 + sigs.length) + post.length := by
    rw [hsize, hdata]
    simp only [List.length_append, List.length_cons, List.length_nil]
    omega
  have hbyte : byteAt d d.position = 0x40 + 4 * n + s := by
    have h1 := getD_append_mid pre ((0x40 + 4 * n + s) :: sigs) post 0 (by simp)
    simpa [byteAt, hdata, hpos] using h1
  have hread : _cte_decoder_read_signature_vector_data d =
      some (sigs, { d with
        position := pre.length + (1 + sigs.length)
        last_vector_count := n }) := by
    unfold _cte_decoder_read_signature_vector_data
    rw [if_neg (show ¬ (d.position + 1 > d.size) by omega)]
    rw [hbyte]
    rw [if_neg (by rw [htag]; simp)]
    show (let N := ((0x40 + 4 * n + s) >>> 2) &&& 0x0F
          let TT := (0x40 + 4 * n + s) &&& CTE_VECTOR_ENTRY_SIZE_MASK
          if N = 0 ∨ N > CTE_VECTOR_MAX_LEN then none
          else
            match get_signature_item_size TT with
            | none => none
            | some item_size =>
              if d.position + (1 + N * item_size) > d.size then none
              else some (listSlice d.data (d.position + 1) (N * item_size),
                { d with
                  position := d.position + 1 + N * item_size
                  last_vector_count := N })) = _
    rw [hN, hTT]
    rw [if_neg (by
      simp only [CTE_VECTOR_MAX_LEN]
      omega)]
    have hslice : ∀ m : Nat, m = sigs.length → listSlice d.data (d.position + 1) m = sigs := by
      intro m hm
      rw [hdata, hpos, hm]
      have hmid := slice_append_mid (pre ++ [0x40 + 4 * n + s]) sigs post
      simpa using hmid
    interval_cases s <;>
      (simp only [get_signature_item_size, Option.getD_some] at hslen ⊢
       rw [if_neg (by
         simp only [CTE_SIGNATURE_SIZE_ED25519, CTE_SIGNATURE_HASH_SIZE_PQC] at hslen ⊢
         omega)]
       rw [hslice _ (by
         simp only [CTE_SIGNATURE_SIZE_ED25519, CTE_SIGNATURE_HASH_SIZE_PQC] at hslen ⊢
         omega)]
       simp only [Option.some.injEq, Prod.mk.injEq, true_and]
       congr 1
       simp only [CTE_SIGNATURE_SIZE_ED25519, CTE_SIGNATURE_HASH_SIZE_PQC] at hslen ⊢
       omega)
  unfold decodeOp
  rw [peek_nonzero d (by omega) (by omega), hbyte, hcl]
  show (if CTE_PEEK_TYPE_SIG_VECTOR_SIZE_0 + (s : Int) ≠ opPeekType (.sigVec n s sigs) then none
        else match _cte_decoder_read_signature_vector_data d with
          | some (bs, d2) => if bs = sigs then some d2 else none
          | none => none) = _
  rw [if_neg (by simp [opPeekType]), hread]
  simp
  omega

theorem decodeOp_spec (op : FieldOp) (pre post : List Nat) (d : cte_decoder_t)
    (hv : validOp op)
    (hdata : d.data = pre ++ fieldBytes op ++ post)
    (hpos : d.position = pre.length) (hpre : 1 ≤ pre.length)
    (hsize : d.size = d.data.length) :
    ∃ d', decodeOp d op = some d' ∧ d'.data = d.data ∧ d'.size = d.size ∧
      d'.position = pre.length + (fieldBytes op).length := by
  cases op with
  | uleb v =>
    exact ⟨_, decodeOp_uleb v pre post d hv hdata hpos hpre hsize, rfl, rfl, rfl⟩
  | sleb v =>
    exact ⟨_, decodeOp_sleb v pre post d hv.1 hv.2 hdata hpos hpre hsize, rfl, rfl, rfl⟩
  | fixed tc bytes =>
    exact ⟨_, decodeOp_fixed tc bytes pre post d hv.1 hv.2.1 hdata hpos hpre hsize,
      rfl, rfl, rfl⟩
  | boolean b =>
    exact ⟨_, decodeOp_boolean b pre post d hdata hpos hpre hsize, rfl, rfl, rfl⟩
  | index i =>
    exact ⟨_, decodeOp_index i pre post d hv hdata hpos hpre hsize, rfl, rfl, rfl⟩
  | vecData payload =>
    exact ⟨_, decodeOp_vecData payload pre post d hv.1 hdata hpos hpre hsize, rfl, rfl, rfl⟩
  | pkVec n s keys =>
    exact ⟨_, decodeOp_pkVec n s keys pre post d hv.1 hv.2.1 hv.2.2.1 hv.2.2.2.1
      hdata hpos hpre hsize, rfl, rfl, rfl⟩
  | sigVec n s sigs =>
    exact ⟨_, decodeOp_sigVec n s sigs pre post d hv.1 hv.2.1 hv.2.2.1 hv.2.2.2.1
      hdata hpos hpre hsize, rfl, rfl, rfl⟩

theorem decodeOps_spec : ∀ (ops : List FieldOp) (pre post : List Nat) (d : cte_decoder_t),
    (∀ op ∈ ops, validOp op) →
    d.data = pre ++ opsBytes ops ++ post →
    d.position = pre.length → 1 ≤ pre.length → d.size = d.data.length →
    ∃ d', decodeOps d ops = some d' ∧ d'.data = d.data ∧ d'.size = d.size ∧
      d'.position = pre.length + (opsBytes ops).length := by
  intro ops
  induction ops with
  | nil =>
    intro pre post d _ hdata hpos hpre hsize
    exact ⟨d, by simp [decodeOps], rfl, rfl, by simp [opsBytes, hpos]⟩
  | cons op rest ihr =>
    intro pre post d hv hdata hpos hpre hsize
    obtain ⟨d1, hstep, hd1data, hd1size, hd1pos⟩ :=
      decodeOp_spec op pre (opsBytes rest ++ post) d (hv op (by simp))
        (by rw [hdata]; simp [opsBytes]) hpos hpre hsize
    obtain ⟨d2, hrest, hdd, hds, hdp⟩ := ihr (pre ++ fieldBytes op) post d1
      (fun o ho => hv o (by simp [ho]))
      (by rw [hd1data, hdata]; simp [opsBytes])
      (by rw [hd1pos]; simp)
      (by simp only [List.length_append]; omega)
      (by rw [hd1size, hd1data]; exact hsize)
    refine ⟨d2, ?_, ?_, ?_, ?_⟩
    · simp only [decodeOps, hstep]
      exact hrest
    · rw [hdd, hd1data]
    · rw [hds, hd1size]
    · rw [hdp]
      simp only [opsBytes, List.length_append]
      omega

theorem peek_version (d : cte_decoder_t) (h0 : d.position = 0)
    (hv : byteAt d 0 = CTE_VERSION_BYTE) :
    cte_decoder_peek_type d = cte_decoder_peek_type { d with position := 1 } := by
  unfold cte_decoder_peek_type
  rw [if_pos h0, if_neg (by rw [hv]; simp)]
  rw [if_neg (show ¬ (({ d with position := 1 } : cte_decoder_t).position = 0) by simp)]
  rw [h0]

theorem decodeOps_version (d : cte_decoder_t) (op : FieldOp) (rest : List FieldOp)
    (h0 : d.position = 0) (hv : byteAt d 0 = CTE_VERSION_BYTE) :
    decodeOps d (op :: rest) = decodeOps { d with position := 1 } (op :: rest) := by
  simp only [decodeOps]
  unfold decodeOp
  rw [peek_version d h0 hv]

/-- C1: for every sequence of encoder field-constructor calls with valid arguments
issued after init with sufficient capacity (i.e. every successful `encodeOps` run),
decoding the produced buffer with the matching typed reads succeeds and yields the
same sequence of peek enumerants, the same scalar values, and byte-for-byte equal
vector payloads, and the decoder's position advances from 1 to size, where a final
peek returns EOF — no read or peek aborts. -/
theorem cte_roundtrip_gen (ops : List FieldOp) (cap : Nat) (e0 e : cte_encoder_t)
    (hv : ∀ op ∈ ops, validOp op)
    (hinit : cte_encoder_init cap = some e0)
    (henc : encodeOps e0 ops = some e) :
    ∃ d', decodeOps (cte_decoder_with_data (cte_encoder_get_data e)) ops = some d' ∧
      ∃ d2, cte_decoder_peek_type d' = some (CTE_PEEK_EOF, d2) ∧
        d2.position = d2.size ∧ d2.size = cte_encoder_get_size e := by
  have he0 : e0.buffer = [CTE_VERSION_BYTE] := by
    unfold cte_encoder_init at hinit
    split at hinit
    · exact absurd hinit (by simp)
    · simp only [Option.some.injEq] at hinit
      rw [← hinit]
  have hbuf := encodeOps_buffer ops e0 e hv henc
  rw [he0] at hbuf
  have hdata : (cte_decoder_with_data (cte_encoder_get_data e)).data =
      [CTE_VERSION_BYTE] ++ opsBytes ops := by
    simp [cte_decoder_with_data, cte_encoder_get_data, hbuf]
  have hsizeq : (cte_decoder_with_data (cte_encoder_get_data e)).size =
      1 + (opsBytes ops).length := by
    simp [cte_decoder_with_data, cte_encoder_get_data, hbuf]
    omega
  have hges : cte_encoder_get_size e = 1 + (opsBytes ops).length := by
    simp [cte_encoder_get_size, cte_encoder_t.position, hbuf]
    omega
  have hb0 : byteAt (cte_decoder_with_data (cte_encoder_get_data e)) 0 = CTE_VERSION_BYTE := by
    simp [byteAt, hdata]
  cases ops with
  | nil =>
    refine ⟨cte_decoder_with_data (cte_encoder_get_data e), by simp [decodeOps], ?_⟩
    rw [peek_version _ (by simp [cte_decoder_with_data]) hb0]
    refine ⟨_, peek_eof _ (by simp) (by simp [hsizeq, opsBytes]), by simp [hsizeq, opsBytes],
      by simp [hsizeq, hges]⟩
  | cons op rest =>
    rw [decodeOps_version _ op rest (by simp [cte_decoder_with_data]) hb0]
    obtain ⟨d', hdec, hdd, hds, hdp⟩ := decodeOps_spec (op :: rest) [CTE_VERSION_BYTE] []
      { cte_decoder_with_data (cte_encoder_get_data e) with position := 1 }
      hv (by simpa using hdata) (by simp [cte_decoder_with_data]) (by simp)
      rfl
    refine ⟨d', hdec, d', ?_, ?_, ?_⟩
    · exact peek_eof d' (by rw [hdp]; simp only [List.length_cons, List.length_nil]; omega)
        (by rw [hdp, hds]; simp [hsizeq])
    · rw [hdp, hds]
      simp [hsizeq]
    · rw [hds]
      simp [hsizeq, hges]

/-! ### LEB128 rejection of unterminated / overlong sequences -/

theorem decodeUlebLoop_skip : ∀ (bs : List Nat) (i r : Nat) (pre post : List Nat)
    (d : cte_decoder_t),
    i + bs.length ≤ 9 → (∀ b ∈ bs, 128 ≤ b ∧ b < 256) →
    d.data = pre ++ bs ++ post → d.position = pre.length → d.size = d.data.length →
    ∃ r2, decodeUlebLoop d r (7 * i) (10 - i) =
      decodeUlebLoop { d with position := pre.length + bs.length } r2
        (7 * (i + bs.length)) (10 - (i + bs.length)) := by
  intro bs
  induction bs with
  | nil =>
    intro i r pre post d _ _ _ hpos _
    refine ⟨r, ?_⟩
    simp only [List.length_nil, Nat.add_zero, ← hpos]
  | cons b rest ihr =>
    intro i r pre post d hlen hcont hdata hpos hsize
    have hlen1 : rest.length + 1 + i ≤ 9 := by
      simp only [List.length_cons] at hlen
      omega
    obtain ⟨it, hit⟩ : ∃ it, 10 - i = it + 1 := ⟨9 - i, by omega⟩
    have hb := hcont b (by simp)
    have hbyte : byteAt d d.position = b := by
      have h1 := getD_append_mid pre (b :: rest) post 0 (by simp)
      simpa [byteAt, hdata, hpos] using h1
    have hsz : d.size = pre.length + ((b :: rest).length + post.length) := by
      rw [hsize, hdata]
      simp
      try omega
    have hbounds : ¬ (d.position + 1 > d.size) := by
      rw [hpos, hsz]
      simp only [List.length_cons]
      omega
    have hguard : ¬ ((7 : Nat) * i ≥ 64 ∨ (7 * i = 63 ∧ b &&& 0xFE ≠ 0)) := by
      rintro (h64 | ⟨h63, -⟩) <;> omega
    have hcont1 : ¬ (b &&& 0x80 = 0) := by
      have h2 := byte_and_128 b hb.2
      omega
    rw [hit]
    simp only [decodeUlebLoop, hbyte]
    rw [if_neg hbounds, if_neg hguard, if_neg hcont1]
    obtain ⟨r2, hskip⟩ := ihr (i + 1) (r ||| ((b &&& 0x7F) <<< (7 * i) % 2 ^ 64))
      (pre ++ [b]) post { d with position := d.position + 1 }
      (by omega) (fun x hx => hcont x (by simp [hx]))
      (by rw [hdata]; simp) (by simp [hpos]) (by simpa using hsize)
    rw [show 7 * i + 7 = 7 * (i + 1) by omega, show it = 10 - (i + 1) by omega]
    rw [hskip]
    refine ⟨r2, ?_⟩
    congr 2 <;> (simp only [List.length_append, List.length_cons, List.length_nil]; omega)

theorem uleb_tenth_byte_aborts (ys : List Nat) (b : Nat) (pre post : List Nat)
    (d : cte_decoder_t)
    (hys : ys.length = 9) (hcont : ∀ x ∈ ys, 128 ≤ x ∧ x < 256)
    (hfe : b &&& 0xFE ≠ 0)
    (hdata : d.data = pre ++ ys ++ ([b] ++ post)) (hpos : d.position = pre.length)
    (hsize : d.size = d.data.length) :
    _decode_uleb128 d = none := by
  obtain ⟨r2, hskip⟩ := decodeUlebLoop_skip ys 0 0 pre ([b] ++ post) d
    (by omega) hcont (by simpa using hdata) hpos hsize
  norm_num [hys] at hskip
  unfold _decode_uleb128
  rw [hskip]
  have hbyte : byteAt { d with position := pre.length + 9 } (pre.length + 9) = b := by
    have h1 := getD_append_mid (pre ++ ys) ([b] ++ post) [] 0 (by simp)
    have h2 : (pre ++ ys) ++ ([b] ++ post) ++ [] = pre ++ ys ++ ([b] ++ post) := by simp
    rw [h2] at h1
    simp only [List.length_append, hys] at h1
    simpa [byteAt, hdata] using h1
  have hbounds : ¬ (pre.length + 9 + 1 > d.size) := by
    rw [hsize, hdata]
    simp only [List.length_append, List.length_cons, List.length_nil, hys]
    omega
  simp only [decodeUlebLoop, hbyte]
  norm_num
  intro _ h2 _
  exact absurd h2 hfe

theorem decodeSlebLoop_skip : ∀ (bs : List Nat) (i r : Nat) (pre post : List Nat)
    (d : cte_decoder_t),
    i + bs.length ≤ 9 → (∀ b ∈ bs, 128 ≤ b ∧ b < 256) →
    d.data = pre ++ bs ++ post → d.position = pre.length → d.size = d.data.length →
    ∃ r2, decodeSlebLoop d r (7 * i) (10 - i) =
      decodeSlebLoop { d with position := pre.length + bs.length } r2
        (7 * (i + bs.length)) (10 - (i + bs.length)) := by
  intro bs
  induction bs with
  | nil =>
    intro i r pre post d _ _ _ hpos _
    refine ⟨r, ?_⟩
    simp only [List.length_nil, Nat.add_zero, ← hpos]
  | cons b rest ihr =>
    intro i r pre post d hlen hcont hdata hpos hsize
    have hlen1 : rest.length + 1 + i ≤ 9 := by
      simp only [List.length_cons] at hlen
      omega
    obtain ⟨it, hit⟩ : ∃ it, 10 - i = it + 1 := ⟨9 - i, by omega⟩
    have hb := hcont b (by simp)
    have hbyte : byteAt d d.position = b := by
      have h1 := getD_append_mid pre (b :: rest) post 0 (by simp)
      simpa [byteAt, hdata, hpos] using h1
    have hbounds : ¬ (d.position + 1 > d.size) := by
      rw [hpos, hsize, hdata]
      simp only [List.length_append, List.length_cons]
      omega
    have hcont1 : ¬ (b &&& 0x80 = 0) := by
      have h2 := byte_and_128 b hb.2
      omega
    have hsh : ¬ ((7 : Nat) * i + 7 ≥ 64) := by omega
    rw [hit]
    simp only [decodeSlebLoop, hbyte]
    rw [if_neg hbounds, if_neg hcont1, if_neg hsh]
    obtain ⟨r2, hskip⟩ := ihr (i + 1) (r ||| ((b &&& 0x7F) <<< (7 * i) % 2 ^ 64))
      (pre ++ [b]) post { d with position := d.position + 1 }
      (by omega) (fun x hx => hcont x (by simp [hx]))
      (by rw [hdata]; simp) (by simp [hpos]) (by simpa using hsize)
    rw [show 7 * i + 7 = 7 * (i + 1) by omega, show it = 10 - (i + 1) by omega]
    rw [hskip]
    refine ⟨r2, ?_⟩
    congr 2 <;> (simp only [List.length_append, List.length_cons, List.length_nil]; omega)

theorem sleb_ten_cont_aborts (ys : List Nat) (b : Nat) (pre post : List Nat)
    (d : cte_decoder_t)
    (hys : ys.length = 9) (hcont : ∀ x ∈ ys, 128 ≤ x ∧ x < 256)
    (hb : 128 ≤ b ∧ b < 256)
    (hdata : d.data = pre ++ ys ++ ([b] ++ post)) (hpos : d.position = pre.length)
    (hsize : d.size = d.data.length) :
    _decode_sleb128 d = none := by
  obtain ⟨r2, hskip⟩ := decodeSlebLoop_skip ys 0 0 pre ([b] ++ post) d
    (by omega) hcont (by simpa using hdata) hpos hsize
  norm_num [hys] at hskip
  unfold _decode_sleb128
  rw [hskip]
  have hbyte : byteAt { d with position := pre.length + 9 } (pre.length + 9) = b := by
    have h1 := getD_append_mid (pre ++ ys) ([b] ++ post) [] 0 (by simp)
    have h2 : (pre ++ ys) ++ ([b] ++ post) ++ [] = pre ++ ys ++ ([b] ++ post) := by simp
    rw [h2] at h1
    simp only [List.length_append, hys] at h1
    simpa [byteAt, hdata] using h1
  have hcont1 : ¬ (b &&& 0x80 = 0) := by
    have h2 := byte_and_128 b hb.2
    omega
  simp only [decodeSlebLoop, hbyte]
  norm_num
  intro _ h2
  have h3 := byte_and_128 b hb.2
  omega

/-- C5: the ULEB128 read aborts on 10 all-continuation bytes (unterminated) and when the
10th byte is reached at shift 63 with any bit other than the lowest value bit set; every
valid ULEB128 encoding of a 64-bit value decodes to that value; the SLEB128 read likewise
aborts on 10 all-continuation bytes (continuation at shift 64 and beyond the 10-byte cap). -/
theorem leb128_error_handling :
    (∀ (bs pre post : List Nat) (d : cte_decoder_t),
       bs.length = 10 → (∀ b ∈ bs, 128 ≤ b ∧ b < 256) →
       d.data = pre ++ bs ++ post → d.position = pre.length → d.size = d.data.length →
       _decode_uleb128 d = none) ∧
    (∀ (ys : List Nat) (b : Nat) (pre post : List Nat) (d : cte_decoder_t),
       ys.length = 9 → (∀ x ∈ ys, 128 ≤ x ∧ x < 256) → b &&& 0xFE ≠ 0 →
       d.data = pre ++ ys ++ [b] ++ post → d.position = pre.length →
       d.size = d.data.length →
       _decode_uleb128 d = none) ∧
    (∀ (v : Nat) (pre post : List Nat) (d : cte_decoder_t),
       v < 2 ^ 64 →
       d.data = pre ++ uleb128Bytes v ++ post → d.position = pre.length →
       d.size = d.data.length →
       _decode_uleb128 d =
         some (v, { d with position := pre.length + (uleb128Bytes v).length })) ∧
    (∀ (bs pre post : List Nat) (d : cte_decoder_t),
       bs.length = 10 → (∀ b ∈ bs, 128 ≤ b ∧ b < 256) →
       d.data = pre ++ bs ++ post → d.position = pre.length → d.size = d.data.length →
       _decode_sleb128 d = none) := by
  refine ⟨?_, ?_, ?_, ?_⟩
  · intro bs pre post d hlen hcont hdata hpos hsize
    have hne : bs ≠ [] := by
      intro h
      rw [h] at hlen
      simp at hlen
    have hsplit : bs.dropLast ++ [bs.getLast hne] = bs := List.dropLast_append_getLast hne
    have hblast := hcont (bs.getLast hne) (List.getLast_mem hne)
    have hfe : bs.getLast hne &&& 0xFE ≠ 0 := by
      have h2 := byte_and_254 (bs.getLast hne) hblast.2
      omega
    refine uleb_tenth_byte_aborts bs.dropLast (bs.getLast hne) pre post d ?_ ?_ hfe ?_ hpos hsize
    · rw [List.length_dropLast, hlen]
    · intro x hx
      exact hcont x (List.dropLast_subset _ hx)
    · rw [hdata, show pre ++ bs.dropLast ++ ([bs.getLast hne] ++ post) =
        pre ++ (bs.dropLast ++ [bs.getLast hne]) ++ post by simp, hsplit]
  · intro ys b pre post d hys hcont hfe hdata hpos hsize
    refine uleb_tenth_byte_aborts ys b pre post d hys hcont hfe ?_ hpos hsize
    rw [hdata]
    simp
  · intro v pre post d hv hdata hpos hsize
    have hspec := uleb128Bytes_spec v
    have hlen : (uleb128Bytes v).length ≤ 10 :=
      uleb128Bytes_length_le 10 v (by omega)
        (lt_of_lt_of_le hv (by norm_num))
    have h := _decode_uleb128_spec (uleb128Bytes v) pre post d hspec.1 hlen
      (by rw [hspec.2]; exact hv) hdata hpos hsize
    rw [hspec.2] at h
    exact h
  · intro bs pre post d hlen hcont hdata hpos hsize
    have hne : bs ≠ [] := by
      intro h
      rw [h] at hlen
      simp at hlen
    have hsplit : bs.dropLast ++ [bs.getLast hne] = bs := List.dropLast_append_getLast hne
    have hblast := hcont (bs.getLast hne) (List.getLast_mem hne)
    refine sleb_ten_cont_aborts bs.dropLast (bs.getLast hne) pre post d ?_ ?_ hblast ?_ hpos hsize
    · rw [List.length_dropLast, hlen]
    · intro x hx
      exact hcont x (List.dropLast_subset _ hx)
    · rw [hdata, show pre ++ bs.dropLast ++ ([bs.getLast hne] ++ post) =
        pre ++ (bs.dropLast ++ [bs.getLast hne]) ++ post by simp, hsplit]

theorem leb128_error_handling_witness :
    _decode_uleb128 ⟨List.replicate 10 0x80, 10, 0, 0, 0⟩ = none ∧
    _decode_uleb128 ⟨List.replicate 9 0x80 ++ [0x02], 10, 0, 0, 0⟩ = none ∧
    _decode_uleb128 ⟨uleb128Bytes 300, 2, 0, 0, 0⟩ =
      some (300, ⟨uleb128Bytes 300, 2, 0 + (uleb128Bytes 300).length, 0, 0⟩) ∧
    _decode_sleb128 ⟨List.replicate 10 0xFF, 10, 0, 0, 0⟩ = none := by
  refine ⟨?_, ?_, ?_, ?_⟩
  · exact leb128_error_handling.1 (List.replicate 10 0x80) [] []
      ⟨List.replicate 10 0x80, 10, 0, 0, 0⟩ (by decide) (by decide) (by simp) rfl (by simp)
  · exact leb128_error_handling.2.1 (List.replicate 9 0x80) 0x02 [] []
      ⟨List.replicate 9 0x80 ++ [0x02], 10, 0, 0, 0⟩ (by decide) (by decide) (by decide)
      (by simp) rfl (by simp)
  · have h := leb128_error_handling.2.2.1 300 [] []
      ⟨uleb128Bytes 300, 2, 0, 0, 0⟩ (by norm_num) (by simp) rfl ?_
    · simpa using h
    · show 2 = (uleb128Bytes 300).length
      rw [uleb128Bytes_unfold, if_neg (by decide),
        show (300 : Nat) >>> 7 = 2 from by decide,
        uleb128Bytes_unfold, if_pos (by decide)]
      simp
  · exact leb128_error_handling.2.2.2 (List.replicate 10 0xFF) [] []
      ⟨List.replicate 10 0xFF, 10, 0, 0, 0⟩ (by decide) (by decide) (by simp) rfl (by simp)

/-- C2: code bug — for the VARINT_ZERO header byte 0x81 (tag 10, SS=01, DDDD=0000)
`cte_decoder_peek_type` returns the error sentinel -1 instead of the documented
enumerant `CTE_PEEK_TYPE_IXDATA_VARINT_ZERO` = 9, and neither varint read accepts
the field, so the zero form is not accepted as the integer value 0. -/
theorem varint_zero_rejected :
    cte_decoder_peek_type ⟨[0xF1, 0x81], 2, 1, 0, 0⟩ =
      some (-1, ⟨[0xF1, 0x81], 2, 1, 0, 0⟩) ∧
    (-1 : Int) ≠ CTE_PEEK_TYPE_IXDATA_VARINT_ZERO ∧
    _cte_decoder_read_ixdata_uleb128 ⟨[0xF1, 0x81], 2, 1, 0, 0⟩ = none ∧
    _cte_decoder_read_ixdata_sleb128 ⟨[0xF1, 0x81], 2, 1, 0, 0⟩ = none := by
  refine ⟨by decide, by decide, by decide, by decide⟩

/-- C3: code bug — the vector-data read does not check that the low 2 bits of an
extended header byte are zero: with header byte 1 = 0xE1 (low bits 01, length 32) the
payload read succeeds instead of rejecting the field, and peek classifies it as a
well-formed extended vector. -/
theorem ext_padding_bits_not_checked :
    (0xE1 &&& 0x03 ≠ 0) ∧
    _cte_decoder_read_vector_data_payload
      ⟨[0xF1, 0xE1, 0x20] ++ List.replicate 32 0xAB, 35, 1, 0, 0⟩ =
      some (List.replicate 32 0xAB,
        ⟨[0xF1, 0xE1, 0x20] ++ List.replicate 32 0xAB, 35, 35, 0, 32⟩) ∧
    cte_decoder_peek_type ⟨[0xF1, 0xE1, 0x20] ++ List.replicate 32 0xAB, 35, 1, 0, 0⟩ =
      some (CTE_PEEK_TYPE_VECTOR_EXTENDED,
        ⟨[0xF1, 0xE1, 0x20] ++ List.replicate 32 0xAB, 35, 1, 0, 0⟩) := by
  refine ⟨by decide, by decide, by decide⟩

/-- C4 (counterexample): on the reserved varint detail code DDDD=3 (header byte 0x8D)
`cte_decoder_peek_type` does not abort — it returns the value -1 with the decoder
unchanged, contradicting the claim that peek aborts rather than returning a value. -/
theorem peek_reserved_no_abort :
    cte_decoder_peek_type ⟨[0xF1, 0x8D], 2, 1, 0, 0⟩ =
      some (-1, ⟨[0xF1, 0x8D], 2, 1, 0, 0⟩) := by
  decide

/-- C4 (amended): for every IxData header byte with a reserved detail code for its
subtype (SS=01 with DDDD in 3..15, SS=10 with DDDD in 10..15, SS=11 with DDDD in
2..15), `cte_decoder_peek_type` does not abort: it returns the sentinel -1 and leaves
the decoder state unchanged. -/
theorem peek_reserved_detail_sentinel (d : cte_decoder_t) (b : Nat)
    (h1 : 1 ≤ d.position) (h2 : d.position + 1 ≤ d.size)
    (hb : byteAt d d.position = b) (hlt : b < 256)
    (htag : b &&& 0xC0 = 0x80)
    (hres : (b &&& 3 = 1 ∧ 3 ≤ (b >>> 2) &&& 0xF) ∨
            (b &&& 3 = 2 ∧ 10 ≤ (b >>> 2) &&& 0xF) ∨
            (b &&& 3 = 3 ∧ 2 ≤ (b >>> 2) &&& 0xF)) :
    cte_decoder_peek_type d = some (-1, d) := by
  have hclass : ∀ x < 256, x &&& 0xC0 = 0x80 →
      ((x &&& 3 = 1 ∧ 3 ≤ (x >>> 2) &&& 0xF) ∨
       (x &&& 3 = 2 ∧ 10 ≤ (x >>> 2) &&& 0xF) ∨
       (x &&& 3 = 3 ∧ 2 ≤ (x >>> 2) &&& 0xF)) → peekClassify x = -1 := by
    set_option maxRecDepth 4000 in decide
  rw [peek_nonzero d h1 h2, hb, hclass b hlt htag hres]

theorem peek_reserved_detail_sentinel_witness :
    cte_decoder_peek_type ⟨[0xF1, 0xBA], 2, 1, 0, 0⟩ =
      some (-1, ⟨[0xF1, 0xBA], 2, 1, 0, 0⟩) :=
  peek_reserved_detail_sentinel ⟨[0xF1, 0xBA], 2, 1, 0, 0⟩ 0xBA (by decide) (by decide)
    (by decide) (by decide) (by decide) (by decide)

/-- C9: `cte_decoder_init` fails exactly when its size argument is 0; every size ≥ 1
succeeds with a zeroed buffer of that exact size at position 0, including sizes
strictly greater than CTE_MAX_TRANSACTION_SIZE = 1232 — no upper limit is enforced
by init, and `cte_decoder_load` exposes the full buffer. -/
theorem decoder_init_contract :
    (∀ size : Nat, cte_decoder_init size = none ↔ size = 0) ∧
    (∀ size : Nat, 1 ≤ size →
       cte_decoder_init size = some ⟨List.replicate size 0, size, 0, 0, 0⟩ ∧
       (List.replicate size 0).length = size ∧
       cte_decoder_load ⟨List.replicate size 0, size, 0, 0, 0⟩ = List.replicate size 0) ∧
    CTE_MAX_TRANSACTION_SIZE = 1232 ∧
    cte_decoder_init 2000 ≠ none := by
  refine ⟨?_, ?_, by decide, ?_⟩
  · intro size
    unfold cte_decoder_init
    constructor
    · intro h
      by_contra hne
      rw [if_neg hne] at h
      exact Option.noConfusion h
    · intro h
      rw [if_pos h]
  · intro size hsz
    refine ⟨?_, by simp, rfl⟩
    unfold cte_decoder_init
    rw [if_neg (by omega)]
  · unfold cte_decoder_init
    norm_num
    exact fun h => Option.noConfusion h

theorem decoder_init_contract_witness :
    cte_decoder_init 2000 = some ⟨List.replicate 2000 0, 2000, 0, 0, 0⟩ :=
  ((decoder_init_contract.2.1 2000 (by norm_num)).1)

theorem encodeUleb_123456 (cap : Nat) (hcap : 6 ≤ cap) :
    encodeUlebLoop 1 cap 2 123456 0 = some [0xC0, 0xC4, 0x07] := by
  rw [encodeUlebLoop_unfold, if_neg (show ¬ (1 + (2 + 0 + 1) > cap) by omega),
      show (123456 : Nat) >>> 7 = 964 from by decide]
  rw [encodeUlebLoop_unfold, if_neg (show ¬ (1 + (2 + 1 + 1) > cap) by omega),
      show (964 : Nat) >>> 7 = 7 from by decide]
  rw [encodeUlebLoop_unfold, if_neg (show ¬ (1 + (2 + 2 + 1) > cap) by omega),
      show (7 : Nat) >>> 7 = 0 from by decide]
  rw [if_neg (show ¬ ((964 : Nat) = 0) from by decide),
      if_neg (show ¬ ((7 : Nat) = 0) from by decide),
      if_pos (show (0 : Nat) = 0 from rfl)]
  rfl

theorem write_uleb_123456 (cap : Nat) (hcap : 6 ≤ cap) :
    cte_encoder_write_ixdata_uleb128 ⟨[0xF1], cap⟩ 123456 =
      some ⟨[0xF1, 0x85, 0xC0, 0xC4, 0x07], cap⟩ := by
  have hloop := encodeUleb_123456 cap hcap
  unfold cte_encoder_write_ixdata_uleb128 _encode_uleb128 cte_encoder_t.position
  simp only [List.length_cons, List.length_nil]
  rw [if_neg (show ¬ (0 + 1 + 1 > cap) by omega)]
  rw [show (0 + 1 : Nat) = 1 from rfl, show (1 + 1 : Nat) = 2 from rfl, hloop]
  rw [show CTE_TAG_IXDATA_FIELD ||| (CTE_IXDATA_VARINT_ENC_ULEB128 <<< 2) |||
    CTE_IXDATA_SUBTYPE_VARINT = 0x85 from by decide]
  rfl

/-- C6 (amended): writing a single ULEB128 field with value 123456 into a freshly
initialized encoder of capacity ≥ 6 produces exactly the 5-byte buffer
[0xF1, 0x85, 0xC0, 0xC4, 0x07] — the IxData varint/ULEB128 header byte is 0x85, not
the claimed 0x45 — and decoding that buffer yields the ULEB128 enumerant with value
123456 followed by EOF. -/
theorem uleb_123456_roundtrip (cap : Nat) (e0 : cte_encoder_t) (hcap : 6 ≤ cap)
    (hinit : cte_encoder_init cap = some e0) :
    ∃ e, cte_encoder_write_ixdata_uleb128 e0 123456 = some e ∧
      cte_encoder_get_data e = [0xF1, 0x85, 0xC0, 0xC4, 0x07] ∧
      cte_encoder_get_size e = 5 ∧
      ∃ d1, cte_decoder_peek_type (cte_decoder_with_data (cte_encoder_get_data e)) =
          some (CTE_PEEK_TYPE_IXDATA_ULEB128, d1) ∧
        _cte_decoder_read_ixdata_uleb128 d1 =
          some (123456, ⟨[0xF1, 0x85, 0xC0, 0xC4, 0x07], 5, 5, 0, 0⟩) ∧
        cte_decoder_peek_type ⟨[0xF1, 0x85, 0xC0, 0xC4, 0x07], 5, 5, 0, 0⟩ =
          some (CTE_PEEK_EOF, ⟨[0xF1, 0x85, 0xC0, 0xC4, 0x07], 5, 5, 0, 0⟩) := by
  unfold cte_encoder_init at hinit
  rw [if_neg (show ¬ cap < 1 by omega)] at hinit
  injection hinit with h
  subst h
  exact ⟨⟨[0xF1, 0x85, 0xC0, 0xC4, 0x07], cap⟩, write_uleb_123456 cap hcap, rfl, rfl,
    ⟨[0xF1, 0x85, 0xC0, 0xC4, 0x07], 5, 1, 0, 0⟩,
    by simp only [cte_encoder_get_data]; decide, by decide, by decide⟩
theorem uleb_123456_roundtrip_witness :
    6 ≤ 2048 ∧ ∃ e, cte_encoder_write_ixdata_uleb128 ⟨[0xF1], 2048⟩ 123456 = some e ∧
      cte_encoder_get_data e = [0xF1, 0x85, 0xC0, 0xC4, 0x07] ∧
      cte_encoder_get_size e = 5 ∧
      ∃ d1, cte_decoder_peek_type (cte_decoder_with_data (cte_encoder_get_data e)) =
          some (CTE_PEEK_TYPE_IXDATA_ULEB128, d1) ∧
        _cte_decoder_read_ixdata_uleb128 d1 =
          some (123456, ⟨[0xF1, 0x85, 0xC0, 0xC4, 0x07], 5, 5, 0, 0⟩) ∧
        cte_decoder_peek_type ⟨[0xF1, 0x85, 0xC0, 0xC4, 0x07], 5, 5, 0, 0⟩ =
          some (CTE_PEEK_EOF, ⟨[0xF1, 0x85, 0xC0, 0xC4, 0x07], 5, 5, 0, 0⟩) :=
  ⟨by norm_num, uleb_123456_roundtrip 2048 ⟨[0xF1], 2048⟩ (by norm_num) (by decide)⟩

/-- C6 (counterexample): the encoder's actual buffer for ULEB128(123456) differs from
the claimed [0xF1, 0x45, 0xC0, 0xC4, 0x07] in its header byte, and the varint read
rejects the claimed buffer (0x45 is a signature-vector header, not an IxData header). -/
theorem uleb_123456_claimed_bytes_wrong :
    cte_encoder_write_ixdata_uleb128 ⟨[0xF1], 2048⟩ 123456 =
      some ⟨[0xF1, 0x85, 0xC0, 0xC4, 0x07], 2048⟩ ∧
    ([0xF1, 0x85, 0xC0, 0xC4, 0x07] : List Nat) ≠ [0xF1, 0x45, 0xC0, 0xC4, 0x07] ∧
    _cte_decoder_read_ixdata_uleb128 ⟨[0xF1, 0x45, 0xC0, 0xC4, 0x07], 5, 1, 0, 0⟩ =
      none :=
  ⟨write_uleb_123456 2048 (by norm_num), by decide, by decide⟩

/-- C7: for every extended vector-data header (tag 11, format bit 5 set) whose decoded
length ((HHH << 8) | byte2) lies outside [32, 1197] the header parse and the payload
read abort; for every length inside [32, 1197] with enough bytes remaining the read
succeeds, consuming exactly 2 header bytes plus length payload bytes. In particular
lengths 31 (header 0xE0 0x1F) and 1198 (header 0xF0 0xAE) are rejected. -/
theorem ext_vector_length_window :
    (∀ (h1 h2 : Nat) (pre post : List Nat) (d : cte_decoder_t),
       h1 &&& 0xC0 = 0xC0 → h1 &&& 0x20 ≠ 0 →
       ((((h1 >>> 2) &&& 0x07) <<< 8 ||| h2) < 32 ∨
        (((h1 >>> 2) &&& 0x07) <<< 8 ||| h2) > 1197) →
       d.data = pre ++ [h1, h2] ++ post → d.position = pre.length →
       d.size = d.data.length →
       _parse_vector_data_header d = none ∧
       _cte_decoder_read_vector_data_payload d = none) ∧
    (∀ (h1 h2 : Nat) (payload pre post : List Nat) (d : cte_decoder_t),
       h1 &&& 0xC0 = 0xC0 → h1 &&& 0x20 ≠ 0 →
       payload.length = (((h1 >>> 2) &&& 0x07) <<< 8 ||| h2) →
       32 ≤ payload.length → payload.length ≤ 1197 →
       d.data = pre ++ [h1, h2] ++ payload ++ post → d.position = pre.length →
       d.size = d.data.length →
       _cte_decoder_read_vector_data_payload d =
         some (payload, { d with
           position := pre.length + 2 + payload.length
           last_vector_data_len := payload.length })) ∧
    _parse_vector_data_header ⟨[0xF1, 0xE0, 0x1F], 3, 1, 0, 0⟩ = none ∧
    _parse_vector_data_header ⟨[0xF1, 0xF0, 0xAE], 3, 1, 0, 0⟩ = none := by
  refine ⟨?_, ?_, by decide, by decide⟩
  · intro h1 h2 pre post d htag hext hrange hdata hpos hsize
    have hsz : d.size = pre.length + 2 + post.length := by
      rw [hsize, hdata]
      simp only [List.length_append, List.length_cons, List.length_nil]
      try omega
    have hbyte : byteAt d d.position = h1 := by
      have h := getD_append_mid pre [h1, h2] post 0 (by simp)
      simpa [byteAt, hdata, hpos] using h
    have hbyte2 : byteAt d (d.position + 1) = h2 := by
      have h := getD_append_mid pre [h1, h2] post 1 (by simp)
      simpa [byteAt, hdata, hpos] using h
    have hparse : _parse_vector_data_header d = none := by
      unfold _parse_vector_data_header
      rw [if_neg (show ¬ (d.position + 1 > d.size) by omega)]
      rw [hbyte]
      rw [if_neg (show ¬ (h1 &&& CTE_TAG_MASK ≠ CTE_TAG_VECTOR_DATA) from fun hc => hc htag)]
      rw [if_neg (show ¬ (h1 &&& CTE_VECTOR_FORMAT_FLAG_MASK = CTE_VECTOR_FORMAT_SHORT)
        from hext)]
      rw [if_neg (show ¬ (d.position + 2 > d.size) by omega)]
      rw [hbyte2]
      show (if (((h1 >>> 2) &&& 0x07) <<< 8 ||| h2) < CTE_VECTOR_EXTENDED_MIN_LEN ∨
              (((h1 >>> 2) &&& 0x07) <<< 8 ||| h2) > CTE_VECTOR_EXTENDED_MAX_LEN then none
            else some ((((h1 >>> 2) &&& 0x07) <<< 8 ||| h2, 2) : Nat × Nat)) = none
      rw [if_pos (by
        simp only [CTE_VECTOR_EXTENDED_MIN_LEN, CTE_VECTOR_EXTENDED_MAX_LEN]
        omega)]
    refine ⟨hparse, ?_⟩
    unfold _cte_decoder_read_vector_data_payload
    rw [hparse]
  · intro h1 h2 payload pre post d htag hext hlen h32 h1197 hdata hpos hsize
    have hsz : d.size = pre.length + 2 + payload.length + post.length := by
      rw [hsize, hdata]
      simp only [List.length_append, List.length_cons, List.length_nil]
      try omega
    have hbyte : byteAt d d.position = h1 := by
      have h := getD_append_mid pre [h1, h2] (payload ++ post) 0 (by simp)
      simpa [byteAt, hdata, hpos] using h
    have hbyte2 : byteAt d (d.position + 1) = h2 := by
      have h := getD_append_mid pre [h1, h2] (payload ++ post) 1 (by simp)
      simpa [byteAt, hdata, hpos] using h
    have hparse : _parse_vector_data_header d = some (payload.length, 2) := by
      unfold _parse_vector_data_header
      rw [if_neg (show ¬ (d.position + 1 > d.size) by omega)]
      rw [hbyte]
      rw [if_neg (show ¬ (h1 &&& CTE_TAG_MASK ≠ CTE_TAG_VECTOR_DATA) from fun hc => hc htag)]
      rw [if_neg (show ¬ (h1 &&& CTE_VECTOR_FORMAT_FLAG_MASK = CTE_VECTOR_FORMAT_SHORT)
        from hext)]
      rw [if_neg (show ¬ (d.position + 2 > d.size) by omega)]
      rw [hbyte2]
      show (if (((h1 >>> 2) &&& 0x07) <<< 8 ||| h2) < CTE_VECTOR_EXTENDED_MIN_LEN ∨
              (((h1 >>> 2) &&& 0x07) <<< 8 ||| h2) > CTE_VECTOR_EXTENDED_MAX_LEN then none
            else some ((((h1 >>> 2) &&& 0x07) <<< 8 ||| h2, 2) : Nat × Nat)) = _
      rw [show ((h1 >>> 2) &&& 0x07) <<< 8 ||| h2 = payload.length from hlen.symm]
      rw [if_neg (by
        simp only [CTE_VECTOR_EXTENDED_MIN_LEN, CTE_VECTOR_EXTENDED_MAX_LEN]
        omega)]
    unfold _cte_decoder_read_vector_data_payload
    rw [hparse]
    show (if payload.length = SIZE_MAX ∨ (2 : Nat) = 0 then none
          else if d.position + (2 + payload.length) > d.size then none
          else some (listSlice d.data (d.position + 2) payload.length,
            { d with
              position := d.position + 2 + payload.length
              last_vector_data_len := payload.length })) = _
    rw [if_neg (by simp only [SIZE_MAX]; omega), if_neg (by omega)]
    have hslice : listSlice d.data (d.position + 2) payload.length = payload := by
      rw [hdata, hpos]
      have hmid := slice_append_mid (pre ++ [h1, h2]) payload post
      simpa using hmid
    rw [hslice]
    simp only [Option.some.injEq, Prod.mk.injEq, true_and]
    congr 1
    omega

theorem ext_vector_length_window_witness :
    (_parse_vector_data_header ⟨[0xF1, 0xE0, 0x1F], 3, 1, 0, 0⟩ = none ∧
     _cte_decoder_read_vector_data_payload ⟨[0xF1, 0xE0, 0x1F], 3, 1, 0, 0⟩ = none) ∧
    _cte_decoder_read_vector_data_payload
      ⟨[0xF1, 0xE0, 0x20] ++ List.replicate 32 0xAB, 35, 1, 0, 0⟩ =
      some (List.replicate 32 0xAB,
        ⟨[0xF1, 0xE0, 0x20] ++ List.replicate 32 0xAB, 35, 35, 0, 32⟩) := by
  constructor
  · exact ext_vector_length_window.1 0xE0 0x1F [0xF1] []
      ⟨[0xF1, 0xE0, 0x1F], 3, 1, 0, 0⟩ (by decide) (by decide) (by decide) (by decide)
      (by decide) (by decide)
  · have h := ext_vector_length_window.2.1 0xE0 0x20 (List.replicate 32 0xAB) [0xF1] []
      ⟨[0xF1, 0xE0, 0x20] ++ List.replicate 32 0xAB, 35, 1, 0, 0⟩ (by decide) (by decide)
      (by simp only [List.length_replicate]; decide) (by simp) (by simp) (by simp)
      (by decide) (by simp)
    simpa using h

theorem byteAt_lt (d : cte_decoder_t) (h : ∀ b ∈ d.data, b < 256) (p : Nat) :
    byteAt d p < 256 := by
  unfold byteAt
  rw [List.getD_eq_getElem?_getD]
  rcases h2 : d.data[p]? with _ | b
  · simp
  · have hm : b ∈ d.data := List.getElem?_mem h2
    simpa using h b hm

set_option maxRecDepth 4000 in
theorem peekClassify_ne_eof : ∀ b < 256, peekClassify b ≠ CTE_PEEK_EOF := by decide

/-- C8: a peek at position 0 aborts when data[0] is not 0xF1 and otherwise advances the
position to 1; every peek at position ≥ 1 leaves the decoder state unchanged, and (for
in-range byte values) such a peek returns EOF exactly when position equals size. -/
theorem peek_type_contract (d : cte_decoder_t) :
    (d.position = 0 → byteAt d 0 ≠ 0xF1 → cte_decoder_peek_type d = none) ∧
    (d.position = 0 → byteAt d 0 = 0xF1 →
       ∃ t, cte_decoder_peek_type d = some (t, { d with position := 1 })) ∧
    (1 ≤ d.position → ∀ t d', cte_decoder_peek_type d = some (t, d') → d' = d) ∧
    (1 ≤ d.position → d.position ≤ d.size → (∀ b ∈ d.data, b < 256) →
      (cte_decoder_peek_type d = some (CTE_PEEK_EOF, d) ↔ d.position = d.size)) := by
  refine ⟨?_, ?_, ?_, ?_⟩
  · intro h0 hne
    unfold cte_decoder_peek_type
    rw [if_pos h0, if_pos (show byteAt d 0 ≠ CTE_VERSION_BYTE from hne)]
  · intro h0 heq
    unfold cte_decoder_peek_type
    rw [if_pos h0, if_neg (show ¬ (byteAt d 0 ≠ CTE_VERSION_BYTE) from fun hc => hc heq), h0]
    by_cases hh : _cte_decoder_peek_header_byte { d with position := 1 } = -1
    · refine ⟨CTE_PEEK_EOF, ?_⟩
      show (if _cte_decoder_peek_header_byte { d with position := 1 } = -1
            then some (CTE_PEEK_EOF, ({ d with position := 1 } : cte_decoder_t))
            else some (peekClassify
              (_cte_decoder_peek_header_byte { d with position := 1 }).toNat,
              ({ d with position := 1 } : cte_decoder_t))) =
        some (CTE_PEEK_EOF, { d with position := 1 })
      rw [if_pos hh]
    · refine ⟨peekClassify (_cte_decoder_peek_header_byte { d with position := 1 }).toNat, ?_⟩
      show (if _cte_decoder_peek_header_byte { d with position := 1 } = -1
            then some (CTE_PEEK_EOF, ({ d with position := 1 } : cte_decoder_t))
            else some (peekClassify
              (_cte_decoder_peek_header_byte { d with position := 1 }).toNat,
              ({ d with position := 1 } : cte_decoder_t))) = _
      rw [if_neg hh]
  · intro h1 t d' h
    unfold cte_decoder_peek_type at h
    rw [if_neg (by omega : ¬ d.position = 0)] at h
    by_cases hh : _cte_decoder_peek_header_byte d = -1
    · have h2 : some (CTE_PEEK_EOF, d) = some (t, d') := by
        rw [← h]
        show some (CTE_PEEK_EOF, d) =
          (if _cte_decoder_peek_header_byte d = -1 then some (CTE_PEEK_EOF, d)
           else some (peekClassify (_cte_decoder_peek_header_byte d).toNat, d))
        rw [if_pos hh]
      injection h2 with h3
      exact (congrArg Prod.snd h3).symm
    · have h2 : some (peekClassify (_cte_decoder_peek_header_byte d).toNat, d) =
          some (t, d') := by
        rw [← h]
        show _ = (if _cte_decoder_peek_header_byte d = -1 then some (CTE_PEEK_EOF, d)
                  else some (peekClassify (_cte_decoder_peek_header_byte d).toNat, d))
        rw [if_neg hh]
      injection h2 with h3
      exact (congrArg Prod.snd h3).symm
  · intro h1 h2 hbytes
    constructor
    · intro h
      by_contra hne
      have hlt : d.position + 1 ≤ d.size := by omega
      rw [peek_nonzero d h1 hlt] at h
      injection h with h3
      have h4 := congrArg Prod.fst h3
      exact peekClassify_ne_eof (byteAt d d.position) (byteAt_lt d hbytes d.position) h4
    · intro h
      exact peek_eof d h1 h

theorem peek_type_contract_witness :
    cte_decoder_peek_type ⟨[0xA0, 0x00], 2, 0, 0, 0⟩ = none ∧
    (∃ t, cte_decoder_peek_type ⟨[0xF1, 0x83], 2, 0, 0, 0⟩ =
      some (t, { (⟨[0xF1, 0x83], 2, 0, 0, 0⟩ : cte_decoder_t) with position := 1 })) ∧
    (cte_decoder_peek_type ⟨[0xF1, 0x83], 2, 2, 0, 0⟩ =
      some (CTE_PEEK_EOF, ⟨[0xF1, 0x83], 2, 2, 0, 0⟩) ↔ (2 : Nat) = 2) :=
  ⟨(peek_type_contract ⟨[0xA0, 0x00], 2, 0, 0, 0⟩).1 rfl (by decide),
   (peek_type_contract ⟨[0xF1, 0x83], 2, 0, 0, 0⟩).2.1 rfl rfl,
   (peek_type_contract ⟨[0xF1, 0x83], 2, 2, 0, 0⟩).2.2.2 (by norm_num) (by norm_num)
     (by decide)⟩

theorem consume_frame (d : cte_decoder_t) (es hd : Nat) (d1 : cte_decoder_t)
    (h : _consume_ixdata_header d es = some (hd, d1)) :
    d1.last_vector_count = d.last_vector_count ∧
    d1.last_vector_data_len = d.last_vector_data_len := by
  unfold _consume_ixdata_header at h
  simp only [ne_eq] at h
  split at h
  · exact Option.noConfusion h
  · split at h
    · exact Option.noConfusion h
    · split at h
      · exact Option.noConfusion h
      · simp only [Option.some.injEq, Prod.mk.injEq] at h
        rw [← h.2]
        exact ⟨rfl, rfl⟩

theorem decodeUlebLoop_frame : ∀ (iters : Nat) (d : cte_decoder_t) (r s w : Nat)
    (d' : cte_decoder_t), decodeUlebLoop d r s iters = some (w, d') →
    d'.last_vector_count = d.last_vector_count ∧
    d'.last_vector_data_len = d.last_vector_data_len := by
  intro iters
  induction iters with
  | zero =>
    intro d r s w d' h
    exact Option.noConfusion h
  | succ n ih =>
    intro d r s w d' h
    simp only [decodeUlebLoop] at h
    split at h
    · exact Option.noConfusion h
    · split at h
      · exact Option.noConfusion h
      · split at h
        · simp only [Option.some.injEq, Prod.mk.injEq] at h
          rw [← h.2]
          exact ⟨rfl, rfl⟩
        · have h2 := ih _ _ _ _ _ h
          exact ⟨h2.1, h2.2⟩

theorem decodeSlebLoop_frame : ∀ (iters : Nat) (d : cte_decoder_t) (r s : Nat) (w : Int)
    (d' : cte_decoder_t), decodeSlebLoop d r s iters = some (w, d') →
    d'.last_vector_count = d.last_vector_count ∧
    d'.last_vector_data_len = d.last_vector_data_len := by
  intro iters
  induction iters with
  | zero =>
    intro d r s w d' h
    exact Option.noConfusion h
  | succ n ih =>
    intro d r s w d' h
    simp only [decodeSlebLoop] at h
    split at h
    · exact Option.noConfusion h
    · split at h
      · simp only [Option.some.injEq, Prod.mk.injEq] at h
        rw [← h.2]
        exact ⟨rfl, rfl⟩
      · split at h
        · exact Option.noConfusion h
        · have h2 := ih _ _ _ _ _ h
          exact ⟨h2.1, h2.2⟩

/-- C10: a successful public-key or signature vector read sets last_vector_count to the
header's count N = (header >> 2) & 0xF and leaves last_vector_data_len unchanged; a
successful vector-data payload read sets last_vector_data_len to the parsed length and
leaves last_vector_count unchanged; every peek and every scalar IxData read (vector
index, ULEB128, SLEB128, boolean, fixed-width) leaves both fields unchanged. -/
theorem vector_bookkeeping_frame :
    (∀ (d : cte_decoder_t) (bs : List Nat) (d' : cte_decoder_t),
       _cte_decoder_read_public_key_vector_data d = some (bs, d') →
       d'.last_vector_count = (byteAt d d.position >>> 2) &&& 0x0F ∧
       d'.last_vector_data_len = d.last_vector_data_len) ∧
    (∀ (d : cte_decoder_t) (bs : List Nat) (d' : cte_decoder_t),
       _cte_decoder_read_signature_vector_data d = some (bs, d') →
       d'.last_vector_count = (byteAt d d.position >>> 2) &&& 0x0F ∧
       d'.last_vector_data_len = d.last_vector_data_len) ∧
    (∀ (d : cte_decoder_t) (len hs : Nat) (bs : List Nat) (d' : cte_decoder_t),
       _parse_vector_data_header d = some (len, hs) →
       _cte_decoder_read_vector_data_payload d = some (bs, d') →
       d'.last_vector_data_len = len ∧ d'.last_vector_count = d.last_vector_count) ∧
    (∀ (d : cte_decoder_t) (t : Int) (d' : cte_decoder_t),
       cte_decoder_peek_type d = some (t, d') →
       d'.last_vector_count = d.last_vector_count ∧
       d'.last_vector_data_len = d.last_vector_data_len) ∧
    (∀ (d : cte_decoder_t) (v : Nat) (d' : cte_decoder_t),
       _cte_decoder_read_ixdata_vector_index d = some (v, d') →
       d'.last_vector_count = d.last_vector_count ∧
       d'.last_vector_data_len = d.last_vector_data_len) ∧
    (∀ (d : cte_decoder_t) (v : Nat) (d' : cte_decoder_t),
       _cte_decoder_read_ixdata_uleb128 d = some (v, d') →
       d'.last_vector_count = d.last_vector_count ∧
       d'.last_vector_data_len = d.last_vector_data_len) ∧
    (∀ (d : cte_decoder_t) (v : Int) (d' : cte_decoder_t),
       _cte_decoder_read_ixdata_sleb128 d = some (v, d') →
       d'.last_vector_count = d.last_vector_count ∧
       d'.last_vector_data_len = d.last_vector_data_len) ∧
    (∀ (d : cte_decoder_t) (b : Bool) (d' : cte_decoder_t),
       _cte_decoder_read_ixdata_boolean d = some (b, d') →
       d'.last_vector_count = d.last_vector_count ∧
       d'.last_vector_data_len = d.last_vector_data_len) ∧
    (∀ (d : cte_decoder_t) (tc sz : Nat) (bs : List Nat) (d' : cte_decoder_t),
       _read_fixed_data d tc sz = some (bs, d') →
       d'.last_vector_count = d.last_vector_count ∧
       d'.last_vector_data_len = d.last_vector_data_len) := by
  refine ⟨?_, ?_, ?_, ?_, ?_, ?_, ?_, ?_, ?_⟩
  · intro d bs d' h
    unfold _cte_decoder_read_public_key_vector_data at h
    simp only [ne_eq] at h
    split at h
    · exact Option.noConfusion h
    · split at h
      · exact Option.noConfusion h
      · split at h
        · exact Option.noConfusion h
        · split at h
          · exact Option.noConfusion h
          · split at h
            · exact Option.noConfusion h
            · simp only [Option.some.injEq, Prod.mk.injEq] at h
              rw [← h.2]
              exact ⟨rfl, rfl⟩
  · intro d bs d' h
    unfold _cte_decoder_read_signature_vector_data at h
    simp only [ne_eq] at h
    split at h
    · exact Option.noConfusion h
    · split at h
      · exact Option.noConfusion h
      · split at h
        · exact Option.noConfusion h
        · split at h
          · exact Option.noConfusion h
          · split at h
            · exact Option.noConfusion h
            · simp only [Option.some.injEq, Prod.mk.injEq] at h
              rw [← h.2]
              exact ⟨rfl, rfl⟩
  · intro d len hs bs d' hparse h
    unfold _cte_decoder_read_vector_data_payload at h
    rw [hparse] at h
    simp only [] at h
    split at h
    · exact Option.noConfusion h
    · split at h
      · exact Option.noConfusion h
      · simp only [Option.some.injEq, Prod.mk.injEq] at h
        rw [← h.2]
        exact ⟨rfl, rfl⟩
  · intro d t d' h
    unfold cte_decoder_peek_type at h
    split at h
    · exact Option.noConfusion h
    · rename_i d1 heq
      have hd1 : d1.last_vector_count = d.last_vector_count ∧
          d1.last_vector_data_len = d.last_vector_data_len := by
        split at heq
        · split at heq
          · exact Option.noConfusion heq
          · simp only [Option.some.injEq] at heq
            rw [← heq]
            exact ⟨rfl, rfl⟩
        · simp only [Option.some.injEq] at heq
          rw [← heq]
          exact ⟨rfl, rfl⟩
      simp only [ne_eq] at h
      split at h <;>
        (simp only [Option.some.injEq, Prod.mk.injEq] at h
         rw [← h.2]
         exact hd1)
  · intro d v d' h
    unfold _cte_decoder_read_ixdata_vector_index at h
    split at h
    · exact Option.noConfusion h
    · rename_i pair header d1 heq
      simp only [Option.some.injEq, Prod.mk.injEq] at h
      rw [← h.2]
      exact consume_frame d _ header d1 heq
  · intro d v d' h
    unfold _cte_decoder_read_ixdata_uleb128 at h
    split at h
    · exact Option.noConfusion h
    · rename_i pair header d1 heq
      simp only [ne_eq] at h
      split at h
      · exact Option.noConfusion h
      · split at h
        · exact Option.noConfusion h
        · have h1 := consume_frame d _ header d1 heq
          have h2 := decodeUlebLoop_frame 10 d1 0 0 v d' h
          exact ⟨h2.1.trans h1.1, h2.2.trans h1.2⟩
  · intro d v d' h
    unfold _cte_decoder_read_ixdata_sleb128 at h
    split at h
    · exact Option.noConfusion h
    · rename_i pair header d1 heq
      simp only [ne_eq] at h
      split at h
      · exact Option.noConfusion h
      · split at h
        · exact Option.noConfusion h
        · have h1 := consume_frame d _ header d1 heq
          have h2 := decodeSlebLoop_frame 10 d1 0 0 v d' h
          exact ⟨h2.1.trans h1.1, h2.2.trans h1.2⟩
  · intro d b d' h
    unfold _cte_decoder_read_ixdata_boolean at h
    split at h
    · exact Option.noConfusion h
    · rename_i pair header d1 heq
      have h1 := consume_frame d _ header d1 heq
      simp only [ne_eq] at h
      split at h
      · simp only [Option.some.injEq, Prod.mk.injEq] at h
        rw [← h.2]
        exact h1
      · split at h
        · simp only [Option.some.injEq, Prod.mk.injEq] at h
          rw [← h.2]
          exact h1
        · exact Option.noConfusion h
  · intro d tc sz bs d' h
    unfold _read_fixed_data at h
    split at h
    · exact Option.noConfusion h
    · rename_i pair header d1 heq
      have h1 := consume_frame d _ header d1 heq
      simp only [ne_eq] at h
      split at h
      · exact Option.noConfusion h
      · split at h
        · exact Option.noConfusion h
        · split at h
          · exact Option.noConfusion h
          · simp only [Option.some.injEq, Prod.mk.injEq] at h
            rw [← h.2]
            exact h1

theorem vector_bookkeeping_frame_witness :
    ((⟨[0xF1, 0x05] ++ List.replicate 32 1, 34, 34, 1, 7⟩ : cte_decoder_t).last_vector_count =
       1 ∧
     (⟨[0xF1, 0x05] ++ List.replicate 32 1, 34, 34, 1, 7⟩ : cte_decoder_t).last_vector_data_len =
       7) ∧
    ((⟨[0xF1, 0x85, 0x2A], 3, 3, 5, 7⟩ : cte_decoder_t).last_vector_count = 5 ∧
     (⟨[0xF1, 0x85, 0x2A], 3, 3, 5, 7⟩ : cte_decoder_t).last_vector_data_len = 7) := by
  constructor
  · exact vector_bookkeeping_frame.1 ⟨[0xF1, 0x05] ++ List.replicate 32 1, 34, 1, 5, 7⟩
      (List.replicate 32 1) ⟨[0xF1, 0x05] ++ List.replicate 32 1, 34, 34, 1, 7⟩ (by decide)
  · exact vector_bookkeeping_frame.2.2.2.2.2.1 ⟨[0xF1, 0x85, 0x2A], 3, 1, 5, 7⟩ 42
      ⟨[0xF1, 0x85, 0x2A], 3, 3, 5, 7⟩ (by decide)

theorem cte_roundtrip_gen_witness :
    ∃ d', decodeOps (cte_decoder_with_data (cte_encoder_get_data
        (⟨[241, 135, 140, 138, 1, 2, 3, 4, 194, 9, 8, 4] ++ List.replicate 32 5 ++
          [69] ++ List.replicate 32 6, 200⟩ : cte_encoder_t)))
        [.boolean true, .index 3, .fixed 2 [1, 2, 3, 4], .vecData [9, 8],
         .pkVec 1 0 (List.replicate 32 5), .sigVec 1 1 (List.replicate 32 6)] = some d' ∧
      ∃ d2, cte_decoder_peek_type d' = some (CTE_PEEK_EOF, d2) ∧
        d2.position = d2.size ∧
        d2.size = cte_encoder_get_size
          (⟨[241, 135, 140, 138, 1, 2, 3, 4, 194, 9, 8, 4] ++ List.replicate 32 5 ++
            [69] ++ List.replicate 32 6, 200⟩ : cte_encoder_t) :=
  cte_roundtrip_gen
    [.boolean true, .index 3, .fixed 2 [1, 2, 3, 4], .vecData [9, 8],
     .pkVec 1 0 (List.replicate 32 5), .sigVec 1 1 (List.replicate 32 6)]
    200 ⟨[0xF1], 200⟩
    ⟨[241, 135, 140, 138, 1, 2, 3, 4, 194, 9, 8, 4] ++ List.replicate 32 5 ++
      [69] ++ List.replicate 32 6, 200⟩
    (by decide) (by decide) (by decide)
